import Mathlib

/-!
# Chainsaw step processor and error operation

A shallow embedding of `pkg/runner/processors/step.go` and
`pkg/runner/operations/error/error.go`, with the properties of the step
execution engine stated over it.
-/

set_option autoImplicit false
set_option linter.dupNamespace false

namespace Chainsaw

/-! ## Unstructured documents -/

/-- A `time.Duration`, counted in nanoseconds. -/
abbrev Duration := Int

/-- A JSON value as held by `map[string]interface{}`; a map is an association list
read at the first binding of a key. -/
inductive Value where
  | null : Value
  | bool (b : Bool) : Value
  | int (i : Int) : Value
  | str (s : String) : Value
  | list (l : List Value) : Value
  | map (m : List (String × Value)) : Value

/-- The content of an `unstructured.Unstructured`. -/
abbrev Object := List (String × Value)

/-- The document type `unstructured.Unstructured`. -/
structure Unstructured where
  Object : Object

/-- Map read `m[k]`. -/
def mapGet : Object → String → Option Value
  | [], _ => none
  | (k, v) :: rest, key => if k = key then some v else mapGet rest key

/-- Map write `m[k] = v`: the binding of `k` is replaced, or added when there is none. -/
def mapSet : Object → String → Value → Object
  | [], key, v => [(key, v)]
  | (k, w) :: rest, key, v => if k = key then (k, v) :: rest else (k, w) :: mapSet rest key v

/-- The getter `unstructured.NestedFieldNoCopy`: the value at the end of a path of map keys,
when every element before the last is a map holding the next key. -/
def nestedField : Object → List String → Option Value
  | _, [] => none
  | obj, [f] => mapGet obj f
  | obj, f :: g :: rest =>
    match mapGet obj f with
    | some (Value.map m) => nestedField m (g :: rest)
    | _ => none

/-- The text `jsonPath(fields)` used in error messages. -/
def jsonPath (fields : List String) : String :=
  "." ++ ".".intercalate fields

/-- The setter `unstructured.SetNestedField`, walking `fields[:len(fields)-1]` from `obj`:
an element that is present must be a map, an absent one is created as an empty map, and the
last field is assigned in the map reached. `walked` holds the fields already passed, for the
error message. Every call passes a non-empty path (the Go code panics on an empty one). -/
def setNestedFieldFrom (walked : List String) (value : Value) :
    Object → List String → Except String Object
  | obj, [] => .ok obj
  | obj, [f] => .ok (mapSet obj f value)
  | obj, f :: g :: rest =>
    match mapGet obj f with
    | some (Value.map m) =>
      match setNestedFieldFrom (walked ++ [f]) value m (g :: rest) with
      | .ok m' => .ok (mapSet obj f (Value.map m'))
      | .error e => .error e
    | some _ =>
      .error ("value cannot be set because " ++ jsonPath (walked ++ [f]) ++
        " is not a map[string]interface\x7b\x7d")
    | none =>
      match setNestedFieldFrom (walked ++ [f]) value [] (g :: rest) with
      | .ok m' => .ok (mapSet obj f (Value.map m'))
      | .error e => .error e

/-- The setter `unstructured.SetNestedField(obj, value, fields...)`. -/
def SetNestedField (obj : Object) (value : Value) (fields : List String) : Except String Object :=
  setNestedFieldFrom [] value obj fields

/-- The getter `Unstructured.GetKind`: the string under `kind`, or the empty string. -/
def Unstructured.GetKind (u : Unstructured) : String :=
  match mapGet u.Object "kind" with
  | some (Value.str s) => s
  | _ => ""

/-! ## Directives (`v1alpha1`) -/

/-- An expectation attached to a directive, kept as data. -/
abbrev Expectation := Value

/-- A reference to the documents of a directive: a file or URI, or an inline resource. -/
structure FileRefOrResource where
  File : String
  Resource : Option Unstructured

/-- The directive `apply`. -/
structure Apply where
  Timeout : Option Duration
  FileRefOrResource : FileRefOrResource
  DryRun : Option Bool
  Expect : List Expectation

/-- The directive `assert`. -/
structure Assert where
  Timeout : Option Duration
  FileRefOrResource : FileRefOrResource

/-- The directive `command`. -/
structure Command where
  Timeout : Option Duration
  Entrypoint : String
  Args : List String

/-- The directive `create`. -/
structure Create where
  Timeout : Option Duration
  FileRefOrResource : FileRefOrResource
  DryRun : Option Bool
  Expect : List Expectation

/-- The directive `delete`, naming its target by identifying fields only. -/
structure Delete where
  Timeout : Option Duration
  APIVersion : String
  Kind : String
  Name : String
  Namespace : String
  Labels : Option (List (String × String))
  Expect : List Expectation

/-- The directive `error`. -/
structure Error where
  Timeout : Option Duration
  FileRefOrResource : FileRefOrResource

/-- The directive `script`. -/
structure Script where
  Timeout : Option Duration
  Content : String

/-- The directive `sleep`. -/
structure Sleep where
  Duration : Duration

/-- The collector directive `podLogs`. -/
structure PodLogs where
  Namespace : String
  Name : String
  Selector : String

/-- The collector directive `events`. -/
structure Events where
  Namespace : String
  Name : String
  Selector : String

/-- An element of a try list: a union of directives with an optional continue-on-error flag. -/
structure Operation where
  ContinueOnError : Option Bool
  Apply : Option Apply
  Assert : Option Assert
  Command : Option Command
  Create : Option Create
  Delete : Option Delete
  Error : Option Error
  Script : Option Script
  Sleep : Option Sleep

/-- An element of a catch list. -/
structure Catch where
  PodLogs : Option PodLogs
  Events : Option Events
  Command : Option Command
  Script : Option Script
  Sleep : Option Sleep

/-- An element of a finally list. -/
structure Finally where
  PodLogs : Option PodLogs
  Events : Option Events
  Command : Option Command
  Script : Option Script
  Sleep : Option Sleep

/-- The directive lists of a step. -/
structure TestStepSpec where
  SkipDelete : Option Bool
  Try : List Operation
  Catch : List Catch
  Finally : List Finally

/-- A step of a test. -/
structure TestSpecStep where
  TestStepSpec : TestStepSpec

/-- The global configuration fields the step processor reads. -/
structure ConfigurationSpec where
  SkipDelete : Bool
  ForceTerminationGracePeriod : Option Duration

/-- The test-level fields the step processor reads. -/
structure TestSpec where
  SkipDelete : Option Bool
  ForceTerminationGracePeriod : Option Duration

/-- A discovered test. -/
structure Test where
  BasePath : String
  Spec : TestSpec

/-- The merged timeouts of a step, as read through the accessors `ApplyDuration()`, ...,
which are declared outside these sources and taken as data. -/
structure Timeouts where
  ApplyDuration : Duration
  AssertDuration : Duration
  ErrorDuration : Duration
  DeleteDuration : Duration
  CleanupDuration : Duration
  ExecDuration : Duration

/-! ## Collaborators of the step processor -/

/-- A client: the cluster client of the processor, or its dry-run variant `client.DryRun`. -/
inductive Client where
  | cluster : Client
  | DryRun (inner : Client) : Client

/-- The namespacer handed to the operations. -/
structure Namespacer where
  Namespace : String

/-- The getter `Namespacer.GetNamespace`. -/
def Namespacer.GetNamespace (n : Namespacer) : String := n.Namespace

/-- A cleanup callback built by `getCleaner`: calling it registers the object with the
cleaner of the processor under the deletion timeout it holds. -/
structure Cleaner where
  timeout : Option Duration

/-- The kinds of operation report (`report.OperationTypeApply`, ...). -/
inductive OperationType where
  | Apply | Assert | Create | Delete | Command | Script | Sleep

/-- A report handle of one directive. -/
structure OperationReport where
  Name : String
  OperationType : OperationType

/-- The constructor `report.NewOperation`. -/
def NewOperation (name : String) (operationType : OperationType) : OperationReport :=
  { Name := name, OperationType := operationType }

/-- The functions the step processor calls outside its own file: URI parsing, path joining,
the two resource loaders, the two collectors, the skip-delete decision `cleanup.Skip` and the
conversion `int64(d.Seconds())` of a duration to whole seconds. -/
structure Env where
  ParseRequestURI : String → Option String
  Join : String → String → String
  Load : String → Except String (List Unstructured)
  LoadFromURI : String → Except String (List Unstructured)
  PodLogs : PodLogs → Except String Command
  Events : Events → Except String Command
  Skip : Bool → Option Bool → Option Bool → Bool
  Seconds : Duration → Int

/-- The action wrapped by an operation, as built by the constructor `New` of each
operation package from the arguments the step processor passes. -/
inductive Action where
  | apply (client : Client) (resource : Unstructured) (namespacer : Namespacer)
      (cleaner : Option Cleaner) (expect : List Expectation) : Action
  | assert (client : Client) (resource : Unstructured) (namespacer : Namespacer) : Action
  | command (command : Command) (basePath : String) (ns : String) : Action
  | create (client : Client) (resource : Unstructured) (namespacer : Namespacer)
      (cleaner : Option Cleaner) (expect : List Expectation) : Action
  | delete (client : Client) (resource : Unstructured) (namespacer : Namespacer)
      (expect : List Expectation) : Action
  | error (client : Client) (resource : Unstructured) (namespacer : Namespacer) : Action
  | script (script : Script) (basePath : String) (ns : String) : Action
  | sleep (sleep : Sleep) : Action

/-- The struct `operation` of the processors package; a field left out of a composite
literal has its zero value. -/
structure operation where
  continueOnError : Bool := false
  timeout : Option Duration := none
  operation : Action
  operationReport : Option OperationReport := none

/-- The struct `stepProcessor`. The field `stepReport` tells whether the step report pointer
is set; the reports added to it are returned by the builders. -/
structure stepProcessor where
  config : ConfigurationSpec
  client : Client
  namespacer : Namespacer
  test : Test
  step : TestSpecStep
  stepReport : Bool
  timeouts : Timeouts
  env : Env

/-- The result of a builder: the reports it added to the step report, in order, and the
value or error it returned. -/
abbrev Built (α : Type) := List OperationReport × Except String α

/-- Modelled from the spec: `timeout.Get`, which is not among these sources: the explicit
duration if present, else the merged fallback. -/
def timeoutGet (explicit : Option Duration) (fallback : Duration) : Option Duration :=
  match explicit with
  | some d => some d
  | none => some fallback

/-! ## Building the operations of a step (`step.go`) -/

/-- The call `p.stepReport.AddOperation(operationReport)` under its guard
`p.stepReport != nil`: the reports added to the step report. -/
def stepProcessor.addOperation (p : stepProcessor) (operationReport : OperationReport) :
    List OperationReport :=
  if p.stepReport then [operationReport] else []

/-- The method `stepProcessor.fileRefOrResource`. -/
def stepProcessor.fileRefOrResource (p : stepProcessor) (ref : FileRefOrResource) :
    Except String (List Unstructured) :=
  match ref.Resource with
  | some resource => .ok [resource]
  | none =>
    if ref.File ≠ "" then
      match p.env.ParseRequestURI ref.File with
      | none => p.env.Load (p.env.Join p.test.BasePath ref.File)
      | some url => p.env.LoadFromURI url
    else
      .error "file or resource must be set"

/-- The method `stepProcessor.prepareResource`. The Go method writes into the map shared with
its caller; the resource after the call is returned next to the error. -/
def stepProcessor.prepareResource (p : stepProcessor) (resource : Unstructured) :
    Except String Unstructured :=
  let terminationGracePeriod :=
    match p.test.Spec.ForceTerminationGracePeriod with
    | some d => some d
    | none => p.config.ForceTerminationGracePeriod
  match terminationGracePeriod with
  | none => .ok resource
  | some d =>
    let seconds := p.env.Seconds d
    if seconds ≠ 0 then
      let kind := resource.GetKind
      if kind = "Pod" then
        match SetNestedField resource.Object (Value.int seconds)
            ["spec", "terminationGracePeriodSeconds"] with
        | .error err => .error err
        | .ok obj => .ok { Object := obj }
      else if kind = "Deployment" ∨ kind = "StatefulSet" ∨ kind = "DaemonSet" ∨ kind = "Job" then
        match SetNestedField resource.Object (Value.int seconds)
            ["spec", "template", "spec", "terminationGracePeriodSeconds"] with
        | .error err => .error err
        | .ok obj => .ok { Object := obj }
      else if kind = "CronJob" then
        match SetNestedField resource.Object (Value.int seconds)
            ["spec", "jobTemplate", "spec", "template", "spec",
              "terminationGracePeriodSeconds"] with
        | .error err => .error err
        | .ok obj => .ok { Object := obj }
      else
        .ok resource
    else
      .ok resource

/-- The method `stepProcessor.getClient`. -/
def stepProcessor.getClient (p : stepProcessor) (dryRun : Bool) : Client :=
  if !dryRun then p.client else Client.DryRun p.client

/-- The method `stepProcessor.getCleaner`; `none` is the nil callback. -/
def stepProcessor.getCleaner (p : stepProcessor) (dryRun : Bool) : Option Cleaner :=
  if dryRun then none
  else if p.env.Skip p.config.SkipDelete p.test.Spec.SkipDelete p.step.TestStepSpec.SkipDelete then
    none
  else some { timeout := timeoutGet none p.timeouts.CleanupDuration }

/-- The value of `flag != nil && *flag` for an optional boolean. -/
def isSetTrue (flag : Option Bool) : Bool :=
  match flag with
  | some b => b
  | none => false

/-- The resource loop of `applyOperation`, from the operations gathered so far. -/
def stepProcessor.applyResources (p : stepProcessor) (op : Apply) (dryRun : Bool) :
    List Unstructured → List operation → Except String (List operation)
  | [], ops => .ok ops
  | resource :: rest, ops =>
    match p.prepareResource resource with
    | .error err => .error err
    | .ok resource =>
      p.applyResources op dryRun rest (ops ++ [{
        timeout := timeoutGet op.Timeout p.timeouts.ApplyDuration
        operation := Action.apply (p.getClient dryRun) resource p.namespacer
          (p.getCleaner dryRun) op.Expect }])

/-- The method `stepProcessor.applyOperation`. -/
def stepProcessor.applyOperation (p : stepProcessor) (op : Apply) : Built (List operation) :=
  match p.fileRefOrResource op.FileRefOrResource with
  | .error err => ([], .error err)
  | .ok resources =>
    let operationReport := NewOperation ("Apply " ++ op.FileRefOrResource.File) OperationType.Apply
    let dryRun := isSetTrue op.DryRun
    (p.addOperation operationReport, p.applyResources op dryRun resources [])

/-- The resource loop of `assertOperation`, from the operations gathered so far. -/
def stepProcessor.assertResources (p : stepProcessor) (op : Assert)
    (operationReport : OperationReport) : List Unstructured → List operation → List operation
  | [], ops => ops
  | resource :: rest, ops =>
    p.assertResources op operationReport rest (ops ++ [{
      timeout := timeoutGet op.Timeout p.timeouts.AssertDuration
      operation := Action.assert p.client resource p.namespacer
      operationReport := some operationReport }])

/-- The method `stepProcessor.assertOperation`. -/
def stepProcessor.assertOperation (p : stepProcessor) (op : Assert) : Built (List operation) :=
  match p.fileRefOrResource op.FileRefOrResource with
  | .error err => ([], .error err)
  | .ok resources =>
    let operationReport := NewOperation "Assert " OperationType.Assert
    (p.addOperation operationReport, .ok (p.assertResources op operationReport resources []))

/-- The method `stepProcessor.commandOperation`. -/
def stepProcessor.commandOperation (p : stepProcessor) (op : Command) :
    List OperationReport × operation :=
  let operationReport := NewOperation "Command " OperationType.Command
  (p.addOperation operationReport, {
    timeout := timeoutGet op.Timeout p.timeouts.ExecDuration
    operation := Action.command op p.test.BasePath p.namespacer.GetNamespace
    operationReport := some operationReport })

/-- The resource loop of `createOperation`, from the operations gathered so far. -/
def stepProcessor.createResources (p : stepProcessor) (op : Create) (dryRun : Bool) :
    List Unstructured → List operation → Except String (List operation)
  | [], ops => .ok ops
  | resource :: rest, ops =>
    match p.prepareResource resource with
    | .error err => .error err
    | .ok resource =>
      p.createResources op dryRun rest (ops ++ [{
        timeout := timeoutGet op.Timeout p.timeouts.ApplyDuration
        operation := Action.create (p.getClient dryRun) resource p.namespacer
          (p.getCleaner dryRun) op.Expect }])

/-- The method `stepProcessor.createOperation`. -/
def stepProcessor.createOperation (p : stepProcessor) (op : Create) : Built (List operation) :=
  match p.fileRefOrResource op.FileRefOrResource with
  | .error err => ([], .error err)
  | .ok resources =>
    let operationReport := NewOperation "Create " OperationType.Create
    let dryRun := isSetTrue op.DryRun
    (p.addOperation operationReport, p.createResources op dryRun resources [])

/-- The synthetic resource of `deleteOperation`: the setters `SetAPIVersion`, `SetKind`,
`SetName`, `SetNamespace` and `SetLabels` applied to the zero document; an empty name or
namespace and nil labels leave their field out. -/
def deleteResource (op : Delete) : Unstructured :=
  let obj : Object := mapSet [] "apiVersion" (Value.str op.APIVersion)
  let obj := mapSet obj "kind" (Value.str op.Kind)
  let obj :=
    if op.Name = "" then obj
    else (SetNestedField obj (Value.str op.Name) ["metadata", "name"]).toOption.getD obj
  let obj :=
    if op.Namespace = "" then obj
    else (SetNestedField obj (Value.str op.Namespace) ["metadata", "namespace"]).toOption.getD obj
  let obj :=
    match op.Labels with
    | none => obj
    | some labels =>
      (SetNestedField obj (Value.map (labels.map (fun kv => (kv.1, Value.str kv.2))))
        ["metadata", "labels"]).toOption.getD obj
  { Object := obj }

/-- The method `stepProcessor.deleteOperation`; its error result is always nil. -/
def stepProcessor.deleteOperation (p : stepProcessor) (op : Delete) : Built operation :=
  let resource := deleteResource op
  let operationReport := NewOperation "Delete " OperationType.Delete
  (p.addOperation operationReport, .ok {
    timeout := timeoutGet op.Timeout p.timeouts.DeleteDuration
    operation := Action.delete p.client resource p.namespacer op.Expect
    operationReport := some operationReport })

/-- The resource loop of `errorOperation`, from the operations gathered so far. -/
def stepProcessor.errorResources (p : stepProcessor) (op : Error)
    (operationReport : OperationReport) : List Unstructured → List operation → List operation
  | [], ops => ops
  | resource :: rest, ops =>
    p.errorResources op operationReport rest (ops ++ [{
      timeout := timeoutGet op.Timeout p.timeouts.ErrorDuration
      operation := Action.error p.client resource p.namespacer
      operationReport := some operationReport }])

/-- The method `stepProcessor.errorOperation`. -/
def stepProcessor.errorOperation (p : stepProcessor) (op : Error) : Built (List operation) :=
  match p.fileRefOrResource op.FileRefOrResource with
  | .error err => ([], .error err)
  | .ok resources =>
    let operationReport := NewOperation "Error " OperationType.Command
    (p.addOperation operationReport, .ok (p.errorResources op operationReport resources []))

/-- The method `stepProcessor.scriptOperation`. -/
def stepProcessor.scriptOperation (p : stepProcessor) (op : Script) :
    List OperationReport × operation :=
  let operationReport := NewOperation "Script " OperationType.Script
  (p.addOperation operationReport, {
    timeout := timeoutGet op.Timeout p.timeouts.ExecDuration
    operation := Action.script op p.test.BasePath p.namespacer.GetNamespace
    operationReport := some operationReport })

/-- The method `stepProcessor.sleepOperation`. -/
def stepProcessor.sleepOperation (p : stepProcessor) (sleep : Sleep) :
    List OperationReport × operation :=
  let operationReport := NewOperation "Sleep " OperationType.Sleep
  (p.addOperation operationReport, {
    operation := Action.sleep sleep
    operationReport := some operationReport })

/-- The closure `register` of the builders: each operation gets the continue-on-error flag of
the closure and is appended to the operations gathered so far. -/
def register (continueOnError : Bool) (ops : List operation) : List operation → List operation
  | [] => ops
  | o :: rest =>
    register continueOnError (ops ++ [{ o with continueOnError := continueOnError }]) rest

/-- The dispatch of one try directive in `tryOperations`: the operations handed to `register`,
or the error returned. -/
def stepProcessor.tryDispatch (p : stepProcessor) (handler : Operation) :
    Built (List operation) :=
  if let some op := handler.Apply then
    p.applyOperation op
  else if let some op := handler.Assert then
    p.assertOperation op
  else if let some op := handler.Command then
    ((p.commandOperation op).1, .ok [(p.commandOperation op).2])
  else if let some op := handler.Create then
    p.createOperation op
  else if let some op := handler.Delete then
    match p.deleteOperation op with
    | (reports, .error err) => (reports, .error err)
    | (reports, .ok loaded) => (reports, .ok [loaded])
  else if let some op := handler.Error then
    p.errorOperation op
  else if let some op := handler.Script then
    ((p.scriptOperation op).1, .ok [(p.scriptOperation op).2])
  else if let some op := handler.Sleep then
    ((p.sleepOperation op).1, .ok [(p.sleepOperation op).2])
  else
    ([], .error "no operation found")

/-- The loop of `tryOperations` over the directives left, from the operations gathered so
far. -/
def stepProcessor.tryOperationsFrom (p : stepProcessor) :
    List Operation → List operation → Built (List operation)
  | [], ops => ([], .ok ops)
  | handler :: rest, ops =>
    let continueOnError := isSetTrue handler.ContinueOnError
    match p.tryDispatch handler with
    | (reports, .error err) => (reports, .error err)
    | (reports, .ok loaded) =>
      let next := p.tryOperationsFrom rest (register continueOnError ops loaded)
      (reports ++ next.1, next.2)

/-- The method `stepProcessor.tryOperations`. -/
def stepProcessor.tryOperations (p : stepProcessor) (handlers : List Operation) :
    Built (List operation) :=
  p.tryOperationsFrom handlers []

/-- The dispatch of one catch directive in `catchOperations`. -/
def stepProcessor.catchDispatch (p : stepProcessor) (handler : Catch) :
    Built (List operation) :=
  if let some logs := handler.PodLogs then
    match p.env.PodLogs logs with
    | .error err => ([], .error err)
    | .ok cmd => ((p.commandOperation cmd).1, .ok [(p.commandOperation cmd).2])
  else if let some events := handler.Events then
    match p.env.Events events with
    | .error err => ([], .error err)
    | .ok cmd => ((p.commandOperation cmd).1, .ok [(p.commandOperation cmd).2])
  else if let some op := handler.Command then
    ((p.commandOperation op).1, .ok [(p.commandOperation op).2])
  else if let some op := handler.Script then
    ((p.scriptOperation op).1, .ok [(p.scriptOperation op).2])
  else if let some op := handler.Sleep then
    ((p.sleepOperation op).1, .ok [(p.sleepOperation op).2])
  else
    ([], .error "no operation found")

/-- The loop of `catchOperations` over the directives left, from the operations gathered so
far. -/
def stepProcessor.catchOperationsFrom (p : stepProcessor) :
    List Catch → List operation → Built (List operation)
  | [], ops => ([], .ok ops)
  | handler :: rest, ops =>
    match p.catchDispatch handler with
    | (reports, .error err) => (reports, .error err)
    | (reports, .ok loaded) =>
      let next := p.catchOperationsFrom rest (register true ops loaded)
      (reports ++ next.1, next.2)

/-- The method `stepProcessor.catchOperations`. -/
def stepProcessor.catchOperations (p : stepProcessor) (handlers : List Catch) :
    Built (List operation) :=
  p.catchOperationsFrom handlers []

/-- The dispatch of one finally directive in `finallyOperations`. -/
def stepProcessor.finallyDispatch (p : stepProcessor) (handler : Finally) :
    Built (List operation) :=
  if let some logs := handler.PodLogs then
    match p.env.PodLogs logs with
    | .error err => ([], .error err)
    | .ok cmd => ((p.commandOperation cmd).1, .ok [(p.commandOperation cmd).2])
  else if let some events := handler.Events then
    match p.env.Events events with
    | .error err => ([], .error err)
    | .ok cmd => ((p.commandOperation cmd).1, .ok [(p.commandOperation cmd).2])
  else if let some op := handler.Command then
    ((p.commandOperation op).1, .ok [(p.commandOperation op).2])
  else if let some op := handler.Script then
    ((p.scriptOperation op).1, .ok [(p.scriptOperation op).2])
  else if let some op := handler.Sleep then
    ((p.sleepOperation op).1, .ok [(p.sleepOperation op).2])
  else
    ([], .error "no operation found")

/-- The loop of `finallyOperations` over the directives left, from the operations gathered so
far. -/
def stepProcessor.finallyOperationsFrom (p : stepProcessor) :
    List Finally → List operation → Built (List operation)
  | [], ops => ([], .ok ops)
  | handler :: rest, ops =>
    match p.finallyDispatch handler with
    | (reports, .error err) => (reports, .error err)
    | (reports, .ok loaded) =>
      let next := p.finallyOperationsFrom rest (register true ops loaded)
      (reports ++ next.1, next.2)

/-- The method `stepProcessor.finallyOperations`. -/
def stepProcessor.finallyOperations (p : stepProcessor) (handlers : List Finally) :
    Built (List operation) :=
  p.finallyOperationsFrom handlers []

/-! ## The cleanup callback (`getCleaner`) -/

/-- A call of `p.cleaner.register(obj, c, timeout)` received by the cleaner of the
processor. -/
structure Registration where
  obj : Unstructured
  client : Client
  timeout : Option Duration

/-- The body of the callback returned by `getCleaner`, called on an object and a client: the
calls of `register` the cleaner has received so far, followed by the call it makes. -/
def Cleaner.call (cleaner : Cleaner) (obj : Unstructured) (c : Client)
    (registered : List Registration) : List Registration :=
  registered ++ [{ obj := obj, client := c, timeout := cleaner.timeout }]

/-! ## Running a step (`stepProcessor.Run`) -/

/-- The log sections `logging.Try`, `logging.Catch` and `logging.Finally`. -/
inductive Phase where
  | Try | Catch | Finally

/-- The log statuses `logging.RunStatus`, `logging.DoneStatus` and `logging.ErrorStatus`. -/
inductive Status where
  | RunStatus | DoneStatus | ErrorStatus

/-- What a run leaves behind, in order: a log line, or the execution of an operation with the
error its action returned. -/
inductive Event where
  | log (phase : Phase) (status : Status) (err : Option String) : Event
  | exec (o : operation) (err : Option String) : Event

/-- A function registered with `t.Cleanup` by `Run`: the closure over the catch operations or
the closure over the finally operations. -/
inductive CleanupFn where
  | catchOps (ops : List operation) : CleanupFn
  | finallyOps (ops : List operation) : CleanupFn

/-- The state a step runs in: the test handle `t` (its failed mark and its stack of cleanup
functions, last registered first), the lines and executions so far, the content of the step
report, and the state of the world the actions act on. -/
structure RunState (W : Type) where
  failed : Bool
  cleanups : List CleanupFn
  events : List Event
  reports : List OperationReport
  world : W

/-- How a call ends: it returns, or the goroutine is exiting after `t.FailNow` (deferred
calls still run, nothing after the call does). -/
inductive Flow where
  | returned | goexit

variable {W : Type}

/-- The call `logger.Log`. -/
def RunState.log (t : RunState W) (phase : Phase) (status : Status) (err : Option String) :
    RunState W :=
  { t with events := t.events ++ [Event.log phase status err] }

/-- The call `t.Cleanup(f)`. -/
def RunState.Cleanup (t : RunState W) (f : CleanupFn) : RunState W :=
  { t with cleanups := f :: t.cleanups }

/-- The call `t.Fail()`. -/
def RunState.Fail (t : RunState W) : RunState W :=
  { t with failed := true }

/-- The reports a builder added to the step report. -/
def RunState.addReports (t : RunState W) (added : List OperationReport) : RunState W :=
  { t with reports := t.reports ++ added }

/-- Modelled from the spec: the method `operation.execute` of the processors package, which
is not among these sources. The action runs once (`run` gives its error and its effect on the
world); if it fails and the continue-on-error flag is false the test is marked failed and the
operations after it are skipped (`t.FailNow`); if it fails and the flag is true the failure is
recorded on the test (`t.Fail`) and execution continues. -/
def operation.execute (run : Chainsaw.operation → W → Option String × W)
    (o : Chainsaw.operation) (t : RunState W) : Flow × RunState W :=
  let result := run o t.world
  let t := { t with world := result.2, events := t.events ++ [Event.exec o result.1] }
  match result.1 with
  | none => (Flow.returned, t)
  | some _ =>
    if o.continueOnError then (Flow.returned, t.Fail) else (Flow.goexit, t.Fail)

/-- The loop `for _, operation := range ops { operation.execute(ctx) }`. -/
def executeAll (run : operation → W → Option String × W) :
    List operation → RunState W → Flow × RunState W
  | [], t => (Flow.returned, t)
  | o :: rest, t =>
    match o.execute run t with
    | (Flow.goexit, t) => (Flow.goexit, t)
    | (Flow.returned, t) => executeAll run rest t

/-- The method `stepProcessor.Run`. The three deferred calls are written where Go runs them:
after the try loop, last registered first, also when the loop ends in `FailNow`. -/
def stepProcessor.Run (p : stepProcessor) (run : operation → W → Option String × W)
    (t : RunState W) : Flow × RunState W :=
  match p.tryOperations p.step.TestStepSpec.Try with
  | (reports, .error err) =>
    (Flow.goexit, ((t.addReports reports).log Phase.Try Status.ErrorStatus (some err)).Fail)
  | (reports, .ok tryOps) =>
  let t := t.addReports reports
  match p.catchOperations p.step.TestStepSpec.Catch with
  | (reports, .error err) =>
    (Flow.goexit, ((t.addReports reports).log Phase.Catch Status.ErrorStatus (some err)).Fail)
  | (reports, .ok catchOps) =>
  let t := t.addReports reports
  match p.finallyOperations p.step.TestStepSpec.Finally with
  | (reports, .error err) =>
    (Flow.goexit, ((t.addReports reports).log Phase.Finally Status.ErrorStatus (some err)).Fail)
  | (reports, .ok finallyOps) =>
  let t := t.addReports reports
  let t := t.log Phase.Try Status.RunStatus none
  let tried := executeAll run tryOps t
  -- deferred: the log line closing the try section
  let t := tried.2.log Phase.Try Status.DoneStatus none
  -- deferred under `len(finally) != 0`
  let t := if finallyOps.length ≠ 0 then t.Cleanup (CleanupFn.finallyOps finallyOps) else t
  -- deferred under `len(catch) != 0`
  let t :=
    if catchOps.length ≠ 0 then
      if t.failed then t.Cleanup (CleanupFn.catchOps catchOps) else t
    else t
  (tried.1, t)

/-- The body of a cleanup function registered by `Run`; its closing log line is deferred and
is written also when the loop ends in `FailNow`. -/
def CleanupFn.call (run : operation → W → Option String × W) :
    CleanupFn → RunState W → RunState W
  | CleanupFn.catchOps ops, t =>
    (executeAll run ops (t.log Phase.Catch Status.RunStatus none)).2.log
      Phase.Catch Status.DoneStatus none
  | CleanupFn.finallyOps ops, t =>
    (executeAll run ops (t.log Phase.Finally Status.RunStatus none)).2.log
      Phase.Finally Status.DoneStatus none

/-- The test runner calling a stack of cleanup functions, last registered first. -/
def runCleanups (run : operation → W → Option String × W) :
    List CleanupFn → RunState W → RunState W
  | [], t => t
  | f :: rest, t => runCleanups run rest (f.call run t)

/-- The end of the test: the cleanup functions registered on `t` are taken off and called. -/
def teardown (run : operation → W → Option String × W) (t : RunState W) : RunState W :=
  runCleanups run t.cleanups { t with cleanups := [] }

/-- The operations executed, in order, with the error of each. -/
def executed : List Event → List (operation × Option String)
  | [] => []
  | Event.exec o err :: rest => (o, err) :: executed rest
  | Event.log _ _ _ :: rest => executed rest

/-! ## The error operation (`operations/error/error.go`) -/

namespace operror

/-- The errors met by the error operation: the error of a cancelled context, an error of the
API client (not-found or not), an error of the structural check, an error made by
`fmt.Errorf`, and a combination made by `multierr`. -/
inductive Err where
  | context (msg : String) : Err
  | api (notFound : Bool) (msg : String) : Err
  | check (msg : String) : Err
  | errorf (msg : String) : Err
  | multi (errs : List Err) : Err

/-- The test `kerrors.IsNotFound`. -/
def IsNotFound : Err → Bool
  | Err.api notFound _ => notFound
  | _ => false

/-- The errors a combination is made of: those of a combined error, or the error itself. -/
def Err.parts : Err → List Err
  | Err.multi errs => errs
  | e => [e]

/-- The function `multierr.Combine` on non-nil errors: nil for none, the error itself for
one, and otherwise a combined error in which combined arguments are flattened. -/
def Combine : List Err → Option Err
  | [] => none
  | [e] => some e
  | errs => some (Err.multi (errs.flatMap Err.parts))

/-- What the operation holds that its poll condition uses: the structural check of a
candidate against the expected document (`check.Check`, with its mismatch list and its
error) and the name `client.Name(client.ObjectKey(&candidate))`. -/
structure Checker where
  Check : Unstructured → Except Err (List Err)
  Name : Unstructured → String

/-- The getter `Unstructured.GetAPIVersion`. -/
def GetAPIVersion (u : Unstructured) : String :=
  match mapGet u.Object "apiVersion" with
  | some (Value.str s) => s
  | _ => ""

/-- The violation entry of a candidate that matches the expected document. -/
def matchError (c : Checker) (candidate : Unstructured) : Err :=
  Err.errorf (GetAPIVersion candidate ++ "/" ++ candidate.GetKind ++ "/" ++ c.Name candidate ++
    " - resource matches expectation")

/-- The loop of the poll condition over the candidates left, from the entries gathered so
far: the first check error ends it. -/
def checkCandidates (c : Checker) : List Unstructured → List Err → Except Err (List Err)
  | [], errs => .ok errs
  | candidate :: rest, errs =>
    match c.Check candidate with
    | .error err => .error err
    | .ok mismatches =>
      if mismatches.length = 0 then checkCandidates c rest (errs ++ [matchError c candidate])
      else checkCandidates c rest errs

/-- The poll condition of `execute` on the result of one fetch (`internal.Read`): the pair it
returns and the variable `lastErrs` after its deferred assignment. -/
def condition (c : Checker) (fetched : Except Err (List Unstructured)) (lastErrs : List Err) :
    (Bool × Option Err) × List Err :=
  match fetched with
  | .error err =>
    if IsNotFound err then ((true, none), []) else ((false, some err), lastErrs)
  | .ok candidates =>
    if candidates.length = 0 then ((true, none), [])
    else
      match checkCandidates c candidates [] with
      | .error err => ((false, some err), lastErrs)
      | .ok errs => ((decide (errs.length = 0), none), errs)

/-- The result of a poll loop: its error, the state of the condition, and the inputs of the
iterations that were not run. -/
structure Polled (α σ : Type) where
  err : Option Err
  state : σ
  rest : List α

/-- The loop `wait.PollUntilContextCancel` with `immediate` false. Each element of the list is
the input of one iteration reached before the context is done; at the end of the list the
context is done and its error `ctxErr` is returned. An iteration ends the loop when the
condition returns an error or true. -/
def PollUntilContextCancel {α σ : Type} (ctxErr : Err)
    (cond : α → σ → (Bool × Option Err) × σ) : List α → σ → Polled α σ
  | [], st => { err := some ctxErr, state := st, rest := [] }
  | a :: rest, st =>
    match cond a st with
    | ((_, some err), st) => { err := some err, state := st, rest := rest }
    | ((true, none), st) => { err := none, state := st, rest := rest }
    | ((false, none), st) => PollUntilContextCancel ctxErr cond rest st

/-- The method `operation.execute` of the error operation, on the fetch results of the
iterations the context leaves time for: its error, and the fetch results never asked for. -/
def execute (c : Checker) (ctxErr : Err) (fetches : List (Except Err (List Unstructured))) :
    Option Err × List (Except Err (List Unstructured)) :=
  let polled := PollUntilContextCancel ctxErr (condition c) fetches []
  match polled.err with
  | none => (none, polled.rest)
  | some err =>
    if polled.state.length ≠ 0 then (Combine polled.state, polled.rest)
    else (some err, polled.rest)

end operror

/-! ## Loading resources (`resource/load.go`) -/

namespace resource

/-- A byte slice, kept as text. -/
abbrev Bytes := String

/-- The type `splitter`. -/
abbrev splitter := Bytes → Except String (List Bytes)

/-- The type `converter`. -/
abbrev converter := Bytes → Except String Bytes

/-- The functions `load.go` calls outside its own file: the default splitter
`extyaml.SplitDocuments`, the default converter `yaml.ToJSON`, the decoder
`Unstructured.UnmarshalJSON`, `filepath.Clean`, `os.ReadFile` (for the temporary file: its
content after the download), `os.CreateTemp` (the name of the file made), the download
`client.Get()` into a destination at a given attempt (its error, if any), and the closing of
the temporary file (its error, if any). -/
structure Host where
  SplitDocuments : splitter
  ToJSON : converter
  UnmarshalJSON : Bytes → Except String Unstructured
  Clean : String → String
  ReadFile : String → Except String Bytes
  CreateTemp : Except String String
  Get : String → String → Nat → Option String
  Close : String → Option String

/-- The loop of `parse` over the documents left, from the resources gathered so far. -/
def parseDocuments (convert : converter) (unmarshal : Bytes → Except String Unstructured) :
    List Bytes → List Unstructured → Except String (List Unstructured)
  | [], resources => .ok resources
  | document :: rest, resources =>
    match convert document with
    | .error err => .error err
    | .ok jsonBytes =>
      match unmarshal jsonBytes with
      | .error err => .error err
      | .ok resource => parseDocuments convert unmarshal rest (resources ++ [resource])

/-- The function `parse`; `none` is a nil splitter or converter. -/
def parse (h : Host) (content : Bytes) (split : Option splitter) (convert : Option converter) :
    Except String (List Unstructured) :=
  let split :=
    match split with
    | none => h.SplitDocuments
    | some f => f
  let convert :=
    match convert with
    | none => h.ToJSON
    | some f => f
  match split content with
  | .error err => .error err
  | .ok documents => parseDocuments convert h.UnmarshalJSON documents []

/-- The function `Parse`. -/
def Parse (h : Host) (content : Bytes) : Except String (List Unstructured) :=
  parse h content none none

/-- The function `Load`. -/
def Load (h : Host) (path : String) : Except String (List Unstructured) :=
  match h.ReadFile (h.Clean path) with
  | .error err => .error err
  | .ok content =>
    match Parse h content with
    | .error err => .error err
    | .ok tests =>
      if tests.length = 0 then .error ("found no resource in " ++ path) else .ok tests

/-- The loop `wait.ExponentialBackoff` for a condition that returns no error: the condition is
tried, attempt after attempt, until it holds or the steps are used up; then the wait has timed
out. -/
def ExponentialBackoff (condition : Nat → Bool) : Nat → Nat → Option String
  | 0, _ => some "timed out waiting for the condition"
  | steps + 1, attempt =>
    if condition attempt then none else ExponentialBackoff condition steps (attempt + 1)

/-- The function `LoadFromURI`, on the text of the URL. The download is tried in three
steps. -/
def LoadFromURI (h : Host) (url : String) : Except String (List Unstructured) :=
  match h.CreateTemp with
  | .error err => .error ("error creating temp file: " ++ err)
  | .ok tempFile =>
    match ExponentialBackoff (fun attempt => (h.Get url tempFile attempt).isNone) 3 0 with
    | some err => .error ("error downloading content: " ++ err)
    | none =>
      match h.ReadFile tempFile with
      | .error err => .error ("error reading downloaded content: " ++ err)
      | .ok content =>
        match h.Close tempFile with
        | some err => .error ("error closing temp file: " ++ err)
        | none =>
          match Parse h content with
          | .error err => .error err
          | .ok tests =>
            if tests.length = 0 then .error ("found no test in " ++ url) else .ok tests

end resource

/-! ## Notions the properties are stated with -/

/-- The grace period `prepareResource` works with: the test-level value when set, otherwise
the global one. -/
def configuredGracePeriod (p : stepProcessor) : Option Duration :=
  match p.test.Spec.ForceTerminationGracePeriod with
  | some d => some d
  | none => p.config.ForceTerminationGracePeriod

/-- Every element of the path before the last is, where present in the document, a map. -/
def settable : Object → List String → Bool
  | _, [] => true
  | _, [_] => true
  | obj, f :: g :: rest =>
    match mapGet obj f with
    | some (Value.map m) => settable m (g :: rest)
    | some _ => false
    | none => true

/-- The path of the grace period in a Pod. -/
def podPath : List String := ["spec", "terminationGracePeriodSeconds"]

/-- The path of the grace period in a Deployment, StatefulSet, DaemonSet or Job. -/
def templatePath : List String := ["spec", "template", "spec", "terminationGracePeriodSeconds"]

/-- The path of the grace period in a CronJob. -/
def cronJobPath : List String :=
  ["spec", "jobTemplate", "spec", "template", "spec", "terminationGracePeriodSeconds"]

/-- The shape the three builder loops share: each directive is dispatched, an error ends the
loop, and the operations loaded are registered under the flag of the directive. -/
def buildFrom {H : Type} (dispatch : H → Built (List operation)) (flag : H → Bool) :
    List H → List operation → Built (List operation)
  | [], ops => ([], .ok ops)
  | handler :: rest, ops =>
    match dispatch handler with
    | (reports, .error err) => (reports, .error err)
    | (reports, .ok loaded) =>
      let next := buildFrom dispatch flag rest (register (flag handler) ops loaded)
      (reports ++ next.1, next.2)

/-- A list of operations with the continue-on-error flag of each set. -/
def withFlag (continueOnError : Bool) (ops : List operation) : List operation :=
  ops.map (fun o => { o with continueOnError := continueOnError })

/-- A try directive with none of the fields `tryOperations` recognises. -/
def Operation.noneSet (handler : Operation) : Prop :=
  handler.Apply = none ∧ handler.Assert = none ∧ handler.Command = none ∧
    handler.Create = none ∧ handler.Delete = none ∧ handler.Error = none ∧
    handler.Script = none ∧ handler.Sleep = none

/-- A catch directive with none of the fields `catchOperations` recognises. -/
def Catch.noneSet (handler : Catch) : Prop :=
  handler.PodLogs = none ∧ handler.Events = none ∧ handler.Command = none ∧
    handler.Script = none ∧ handler.Sleep = none

/-- A finally directive with none of the fields `finallyOperations` recognises. -/
def Finally.noneSet (handler : Finally) : Prop :=
  handler.PodLogs = none ∧ handler.Events = none ∧ handler.Command = none ∧
    handler.Script = none ∧ handler.Sleep = none

/-- The cleanup functions a run registers, last registered first: the catch closure when
the catch list is not empty and the test is marked failed, over the finally closure when the
finally list is not empty. -/
def scheduled (failed : Bool) (catchOps finallyOps : List operation) : List CleanupFn :=
  (if catchOps.length ≠ 0 then (if failed then [CleanupFn.catchOps catchOps] else []) else []) ++
    (if finallyOps.length ≠ 0 then [CleanupFn.finallyOps finallyOps] else [])

namespace operror

/-- The candidate fully matches the expected document: its check returns no mismatch. -/
def matchesExpected (c : Checker) (candidate : Unstructured) : Bool :=
  match c.Check candidate with
  | .ok mismatches => decide (mismatches.length = 0)
  | .error _ => false

/-- The violation entries of a candidate list: one entry per candidate that fully matches,
in candidate order. -/
def violations (c : Checker) (candidates : List Unstructured) : List Err :=
  (candidates.filter (matchesExpected c)).map (matchError c)

/-- The first error a structural check returns over a candidate list. -/
def firstCheckError (c : Checker) : List Unstructured → Option Err
  | [] => none
  | candidate :: rest =>
    match c.Check candidate with
    | .error err => some err
    | .ok _ => firstCheckError c rest

/-- The hard error of an iteration, if any: the error of a fetch that is not not-found, or
the first error of a structural check. -/
def hardError (c : Checker) : Except Err (List Unstructured) → Option Err
  | .error err => if IsNotFound err then none else some err
  | .ok candidates => firstCheckError c candidates

/-- The iteration completes without a hard error and records violations. -/
def pending (c : Checker) (fetched : Except Err (List Unstructured)) : Prop :=
  ∃ candidates, fetched = .ok candidates ∧ firstCheckError c candidates = none ∧
    violations c candidates ≠ []

end operror

/-- The client and the cleanup callback handed to an apply or create action. -/
def Action.clientAndCleaner : Action → Option (Client × Option Cleaner)
  | Action.apply client _ _ cleaner _ => some (client, cleaner)
  | Action.create client _ _ cleaner _ => some (client, cleaner)
  | _ => none

/-! ## Sample inputs -/

/-- Sample collaborators: nothing parses as a URI, no file loads, the collectors give a
`kubectl` command, skip-delete is the most specific flag set, and a duration is cut to whole
seconds. -/
def sampleEnv : Env where
  ParseRequestURI := fun _ => none
  Join := fun base file => base ++ "/" ++ file
  Load := fun path => .error ("open " ++ path ++ ": no such file or directory")
  LoadFromURI := fun uri => .error ("error downloading content: " ++ uri)
  PodLogs := fun logs =>
    .ok { Timeout := none, Entrypoint := "kubectl", Args := ["logs", logs.Name] }
  Events := fun events =>
    .ok { Timeout := none, Entrypoint := "kubectl", Args := ["get", "events", events.Name] }
  Skip := fun config test step =>
    match step, test with
    | some b, _ => b
    | none, some b => b
    | none, none => config
  Seconds := fun d => Int.tdiv d 1000000000

/-- Sample timeouts, in nanoseconds. -/
def sampleTimeouts : Timeouts where
  ApplyDuration := 5000000000
  AssertDuration := 30000000000
  ErrorDuration := 30000000000
  DeleteDuration := 15000000000
  CleanupDuration := 30000000000
  ExecDuration := 5000000000

/-- A sample processor for a step with the given directives and global grace period. -/
def sampleProcessor (grace : Option Duration) (step : TestStepSpec) : stepProcessor where
  config := { SkipDelete := false, ForceTerminationGracePeriod := grace }
  client := Client.cluster
  namespacer := { Namespace := "default" }
  test := {
    BasePath := "testdata"
    Spec := { SkipDelete := none, ForceTerminationGracePeriod := none } }
  step := { TestStepSpec := step }
  stepReport := true
  timeouts := sampleTimeouts
  env := sampleEnv

/-- A step without directives. -/
def emptyStep : TestStepSpec where
  SkipDelete := none
  Try := []
  Catch := []
  Finally := []

/-- A Pod with a container list under `spec`. -/
def samplePod : Unstructured where
  Object := [("apiVersion", Value.str "v1"), ("kind", Value.str "Pod"),
    ("metadata", Value.map [("name", Value.str "web")]),
    ("spec", Value.map [("containers", Value.list [])])]

/-- A Pod whose `spec` is a string. -/
def stringSpecPod : Unstructured where
  Object := [("apiVersion", Value.str "v1"), ("kind", Value.str "Pod"),
    ("metadata", Value.map [("name", Value.str "web")]), ("spec", Value.str "none")]

/-- A ConfigMap. -/
def sampleConfigMap : Unstructured where
  Object := [("apiVersion", Value.str "v1"), ("kind", Value.str "ConfigMap"),
    ("metadata", Value.map [("name", Value.str "settings")]),
    ("data", Value.map [("key", Value.str "value")])]

/-- A try directive with no field set. -/
def blankOperation : Operation where
  ContinueOnError := none
  Apply := none
  Assert := none
  Command := none
  Create := none
  Delete := none
  Error := none
  Script := none
  Sleep := none

/-- A catch directive with no field set. -/
def blankCatch : Catch where
  PodLogs := none
  Events := none
  Command := none
  Script := none
  Sleep := none

/-- A finally directive with no field set. -/
def blankFinally : Finally where
  PodLogs := none
  Events := none
  Command := none
  Script := none
  Sleep := none

/-- A try directive sleeping for a second, marked continue-on-error. -/
def sleepDirective : Operation :=
  { blankOperation with ContinueOnError := some true, Sleep := some { Duration := 1000000000 } }

/-- The sample ConfigMap given inline. -/
def inlineConfigMap : FileRefOrResource where
  File := ""
  Resource := some sampleConfigMap

/-- A try directive applying the sample ConfigMap given inline. -/
def applyDirective : Operation :=
  { blankOperation with
    Apply := some {
      Timeout := none
      FileRefOrResource := inlineConfigMap
      DryRun := none
      Expect := [] } }

/-- A try directive creating the sample ConfigMap given inline. -/
def createDirective : Operation :=
  { blankOperation with
    Create := some {
      Timeout := none
      FileRefOrResource := inlineConfigMap
      DryRun := none
      Expect := [] } }

/-- A try directive asserting the sample ConfigMap given inline. -/
def assertDirective : Operation :=
  { blankOperation with
    Assert := some { Timeout := none, FileRefOrResource := inlineConfigMap } }

/-- A catch directive running a command. -/
def commandCatch : Catch :=
  { blankCatch with
    Command := some { Timeout := none, Entrypoint := "kubectl", Args := ["get", "pods"] } }

/-- A finally directive running a script. -/
def scriptFinally : Finally :=
  { blankFinally with Script := some { Timeout := none, Content := "echo done" } }

/-- The operation the sample sleep directive builds in a try list. -/
def sleepOperationBuilt : operation where
  continueOnError := true
  timeout := none
  operation := Action.sleep { Duration := 1000000000 }
  operationReport := some (NewOperation "Sleep " OperationType.Sleep)

/-- The report handles of the operations a builder returned, when it returned some. -/
def attachedReports (built : Built (List operation)) : Option (List (Option OperationReport)) :=
  built.2.toOption.map (fun ops => ops.map (fun o => o.operationReport))

/-- The operation the sample command directive builds in a catch list. -/
def commandOperationBuilt : operation where
  continueOnError := true
  timeout := some 5000000000
  operation := Action.command { Timeout := none, Entrypoint := "kubectl", Args := ["get", "pods"] }
    "testdata" "default"
  operationReport := some (NewOperation "Command " OperationType.Command)

/-- A step that sleeps, with a command to run on failure. -/
def sleepThenCatchStep : TestStepSpec where
  SkipDelete := none
  Try := [sleepDirective]
  Catch := [commandCatch]
  Finally := []

/-- A step whose catch list holds a directive with no field set. -/
def blankCatchStep : TestStepSpec where
  SkipDelete := none
  Try := [sleepDirective]
  Catch := [blankCatch]
  Finally := [scriptFinally]

/-- A world in which every action succeeds. -/
def succeed : operation → Unit → Option String × Unit :=
  fun _ w => (none, w)

/-- The state of a test that has not failed and has nothing to clean up. -/
def freshState : RunState Unit where
  failed := false
  cleanups := []
  events := []
  reports := []
  world := ()

/-- The state of a test already marked failed, as after an earlier step in which an operation
marked continue-on-error failed. -/
def failedState : RunState Unit where
  failed := true
  cleanups := []
  events := []
  reports := []
  world := ()

namespace operror

/-- A checker under which every candidate fully matches, naming candidates `web`. -/
def matchAll : Checker where
  Check := fun _ => .ok []
  Name := fun _ => "web"

/-- The error of a context whose deadline has passed. -/
def deadlineExceeded : Err := Err.context "context deadline exceeded"

/-- An error of the API client that is not a not-found error. -/
def connectionRefused : Err := Err.api false "connection refused"

end operror

/-- An apply directive for the sample ConfigMap given inline, not dry-run. -/
def sampleApply : Apply where
  Timeout := none
  FileRefOrResource := inlineConfigMap
  DryRun := none
  Expect := []

/-- The operation the sample apply directive builds. -/
def applyOperationBuilt : operation where
  continueOnError := false
  timeout := some 5000000000
  operation := Action.apply Client.cluster sampleConfigMap { Namespace := "default" }
    (some { timeout := some 30000000000 }) []
  operationReport := none

namespace resource

/-- A sample host: the content `pod,configmap` splits into two documents, `pod,broken` into a
good and a bad one, the converter is the identity, and the decoder knows the documents `pod`
and `configmap`; one file holds the first content. -/
def sampleHost : Host where
  SplitDocuments := fun content =>
    if content = "pod,configmap" then .ok ["pod", "configmap"]
    else if content = "pod,broken" then .ok ["pod", "broken"]
    else .error "yaml: cannot split"
  ToJSON := fun document => .ok document
  UnmarshalJSON := fun jsonBytes =>
    if jsonBytes = "pod" then .ok samplePod
    else if jsonBytes = "configmap" then .ok sampleConfigMap
    else .error "json: cannot unmarshal"
  Clean := fun path => path
  ReadFile := fun path =>
    if path = "testdata/resources.yaml" then .ok "pod,configmap"
    else if path = "testdata/broken.yaml" then .ok "pod,broken"
    else .error ("open " ++ path ++ ": no such file or directory")
  CreateTemp := .ok "testdata/broken.yaml"
  Get := fun _ _ attempt => if attempt = 0 then some "connection reset" else none
  Close := fun _ => none

end resource

/-! ## Properties -/

/-! ### Nested fields -/

theorem mapGet_mapSet (obj : Object) (k : String) (v : Value) :
    mapGet (mapSet obj k v) k = some v := by
  induction obj with
  | nil => simp [mapSet, mapGet]
  | cons kv rest ih =>
    obtain ⟨k', w⟩ := kv
    by_cases h : k' = k
    · simp [mapSet, mapGet, h]
    · simp [mapSet, mapGet, h, ih]

/-- A path that can be set is set: the setter succeeds and the getter then reads the value. -/
theorem setNestedFieldFrom_settable (value : Value) (fields : List String) :
    ∀ (walked : List String) (obj : Object), fields ≠ [] → settable obj fields = true →
      ∃ obj', setNestedFieldFrom walked value obj fields = .ok obj' ∧
        nestedField obj' fields = some value := by
  induction fields with
  | nil => intro _ _ h; exact absurd rfl h
  | cons f rest ih =>
    intro walked obj _ hs
    cases rest with
    | nil => exact ⟨_, rfl, by simp [nestedField, mapGet_mapSet]⟩
    | cons g rest =>
      simp only [settable] at hs
      simp only [setNestedFieldFrom]
      split at hs
      · rename_i m hm
        obtain ⟨m', hm', hget⟩ := ih (walked ++ [f]) m (by simp) hs
        simp only [hm, hm']
        exact ⟨_, rfl, by simp [nestedField, mapGet_mapSet, hget]⟩
      · exact absurd hs (by simp)
      · rename_i hnone
        obtain ⟨m', hm', hget⟩ := ih (walked ++ [f]) [] (by simp) (by
          cases rest <;> simp [settable, mapGet])
        simp only [hnone, hm']
        exact ⟨_, rfl, by simp [nestedField, mapGet_mapSet, hget]⟩

/-- A path that cannot be set is refused. -/
theorem setNestedFieldFrom_not_settable (value : Value) (fields : List String) :
    ∀ (walked : List String) (obj : Object), settable obj fields = false →
      ∃ err, setNestedFieldFrom walked value obj fields = .error err := by
  induction fields with
  | nil => intro _ _ h; simp [settable] at h
  | cons f rest ih =>
    intro walked obj hs
    cases rest with
    | nil => simp [settable] at hs
    | cons g rest =>
      simp only [settable] at hs
      simp only [setNestedFieldFrom]
      split at hs
      · rename_i m hm
        obtain ⟨err, herr⟩ := ih (walked ++ [f]) m hs
        simp only [hm, herr]
        exact ⟨_, rfl⟩
      · exact ⟨_, rfl⟩
      · exact absurd hs (by simp)

/-! ### Termination grace period (`prepareResource`) -/

theorem SetNestedField_settable (obj : Object) (value : Value) (fields : List String)
    (hne : fields ≠ []) (hs : settable obj fields = true) :
    ∃ obj', SetNestedField obj value fields = .ok obj' ∧ nestedField obj' fields = some value :=
  setNestedFieldFrom_settable value fields [] obj hne hs

theorem SetNestedField_not_settable (obj : Object) (value : Value) (fields : List String)
    (hs : settable obj fields = false) :
    ∃ err, SetNestedField obj value fields = .error err :=
  setNestedFieldFrom_not_settable value fields [] obj hs

/-- C8, as the code has it: for a configured grace period (the test-level value when set,
otherwise the global one) whose count of whole seconds is not zero, `prepareResource` on a Pod
in which every present element of the path `spec` is a map succeeds and sets
`spec.terminationGracePeriodSeconds` to that count; likewise under `spec.template.spec` for a
Deployment, StatefulSet, DaemonSet or Job and under `spec.jobTemplate.spec.template.spec` for
a CronJob; and when a present element of the path is not a map it returns an error. -/
theorem prepareResource_sets_grace_period (p : stepProcessor) (resource : Unstructured)
    (d : Duration) (hd : configuredGracePeriod p = some d) (hsec : p.env.Seconds d ≠ 0)
    (path : List String)
    (hkind : (resource.GetKind = "Pod" ∧ path = podPath) ∨
      ((resource.GetKind = "Deployment" ∨ resource.GetKind = "StatefulSet" ∨
          resource.GetKind = "DaemonSet" ∨ resource.GetKind = "Job") ∧ path = templatePath) ∨
      (resource.GetKind = "CronJob" ∧ path = cronJobPath)) :
    (settable resource.Object path = true →
      ∃ r, p.prepareResource resource = .ok r ∧
        nestedField r.Object path = some (Value.int (p.env.Seconds d))) ∧
    (settable resource.Object path = false →
      ∃ err, p.prepareResource resource = .error err) := by
  have hgrace : (match p.test.Spec.ForceTerminationGracePeriod with
      | some d => some d
      | none => p.config.ForceTerminationGracePeriod) = some d := hd
  rcases hkind with ⟨hk, rfl⟩ | ⟨hk, rfl⟩ | ⟨hk, rfl⟩
  · constructor
    · intro hs
      obtain ⟨obj', hset, hget⟩ :=
        SetNestedField_settable resource.Object (Value.int (p.env.Seconds d)) podPath
          (by simp [podPath]) hs
      refine ⟨{ Object := obj' }, ?_, hget⟩
      simp only [podPath] at hset
      simp [stepProcessor.prepareResource, hgrace, hsec, hk, hset]
    · intro hs
      obtain ⟨err, hset⟩ :=
        SetNestedField_not_settable resource.Object (Value.int (p.env.Seconds d)) podPath hs
      refine ⟨err, ?_⟩
      simp only [podPath] at hset
      simp [stepProcessor.prepareResource, hgrace, hsec, hk, hset]
  · have hnp : resource.GetKind ≠ "Pod" := by
      rcases hk with h | h | h | h <;> rw [h] <;> decide
    constructor
    · intro hs
      obtain ⟨obj', hset, hget⟩ :=
        SetNestedField_settable resource.Object (Value.int (p.env.Seconds d)) templatePath
          (by simp [templatePath]) hs
      refine ⟨{ Object := obj' }, ?_, hget⟩
      simp only [templatePath] at hset
      simp [stepProcessor.prepareResource, hgrace, hsec, hnp, hk, hset]
    · intro hs
      obtain ⟨err, hset⟩ :=
        SetNestedField_not_settable resource.Object (Value.int (p.env.Seconds d)) templatePath hs
      refine ⟨err, ?_⟩
      simp only [templatePath] at hset
      simp [stepProcessor.prepareResource, hgrace, hsec, hnp, hk, hset]
  · have hnp : resource.GetKind ≠ "Pod" := by rw [hk]; decide
    have hnw : ¬ (resource.GetKind = "Deployment" ∨ resource.GetKind = "StatefulSet" ∨
        resource.GetKind = "DaemonSet" ∨ resource.GetKind = "Job") := by rw [hk]; decide
    constructor
    · intro hs
      obtain ⟨obj', hset, hget⟩ :=
        SetNestedField_settable resource.Object (Value.int (p.env.Seconds d)) cronJobPath
          (by simp [cronJobPath]) hs
      refine ⟨{ Object := obj' }, ?_, hget⟩
      simp only [cronJobPath] at hset
      simp [stepProcessor.prepareResource, hgrace, hsec, hnp, hnw, hk, hset]
    · intro hs
      obtain ⟨err, hset⟩ :=
        SetNestedField_not_settable resource.Object (Value.int (p.env.Seconds d)) cronJobPath hs
      refine ⟨err, ?_⟩
      simp only [cronJobPath] at hset
      simp [stepProcessor.prepareResource, hgrace, hsec, hnp, hnw, hk, hset]

/-- C8 at a sample Pod under a grace period of thirty seconds. -/
theorem prepareResource_sets_grace_period_witness :
    ∃ r, (sampleProcessor (some 30000000000) emptyStep).prepareResource samplePod = .ok r ∧
      nestedField r.Object podPath = some (Value.int 30) :=
  (prepareResource_sets_grace_period (sampleProcessor (some 30000000000) emptyStep) samplePod
    30000000000 rfl (by decide) podPath (Or.inl ⟨by decide, rfl⟩)).1 (by decide)

/-- C8 fails as stated: under a grace period of thirty seconds a Pod whose `spec` is a string
is refused with an error, and under a grace period of half a second (not zero) a Pod is
returned as it was, without the field. -/
theorem prepareResource_pod_counterexample :
    (sampleProcessor (some 30000000000) emptyStep).prepareResource stringSpecPod =
        .error "value cannot be set because .spec is not a map[string]interface\x7b\x7d" ∧
      (500000000 : Duration) ≠ 0 ∧
      (sampleProcessor (some 500000000) emptyStep).prepareResource samplePod = .ok samplePod ∧
      nestedField samplePod.Object podPath = none :=
  ⟨by rfl, by decide, by rfl, by rfl⟩

/-- C9: for a resource whose kind is none of Pod, Deployment, StatefulSet, DaemonSet, Job and
CronJob, and for a resource of any kind when no grace period is configured at test or global
level, `prepareResource` returns no error and leaves the resource as it was. -/
theorem prepareResource_unchanged (p : stepProcessor) (resource : Unstructured)
    (h : (resource.GetKind ≠ "Pod" ∧ resource.GetKind ≠ "Deployment" ∧
        resource.GetKind ≠ "StatefulSet" ∧ resource.GetKind ≠ "DaemonSet" ∧
        resource.GetKind ≠ "Job" ∧ resource.GetKind ≠ "CronJob") ∨
      (p.test.Spec.ForceTerminationGracePeriod = none ∧
        p.config.ForceTerminationGracePeriod = none)) :
    p.prepareResource resource = .ok resource := by
  rcases h with ⟨h1, h2, h3, h4, h5, h6⟩ | ⟨ht, hc⟩
  · unfold stepProcessor.prepareResource
    simp only [h1, h2, h3, h4, h5, h6, or_self, if_false]
    split
    · rfl
    · split <;> rfl
  · simp [stepProcessor.prepareResource, ht, hc]

/-- C9 at a sample ConfigMap under a grace period of thirty seconds. -/
theorem prepareResource_unchanged_witness :
    (sampleProcessor (some 30000000000) emptyStep).prepareResource sampleConfigMap =
      .ok sampleConfigMap :=
  prepareResource_unchanged (sampleProcessor (some 30000000000) emptyStep) sampleConfigMap
    (Or.inl (by decide))

/-! ### The builders -/

theorem register_eq (b : Bool) (loaded : List operation) :
    ∀ ops, register b ops loaded = ops ++ withFlag b loaded := by
  induction loaded with
  | nil => intro ops; simp [register, withFlag]
  | cons o rest ih => intro ops; simp [register, ih, withFlag]

theorem tryOperationsFrom_eq (p : stepProcessor) (handlers : List Operation) :
    ∀ ops, p.tryOperationsFrom handlers ops =
      buildFrom p.tryDispatch (fun h => isSetTrue h.ContinueOnError) handlers ops := by
  induction handlers with
  | nil => intro ops; rfl
  | cons h rest ih => intro ops; simp only [stepProcessor.tryOperationsFrom, buildFrom, ih]

theorem catchOperationsFrom_eq (p : stepProcessor) (handlers : List Catch) :
    ∀ ops, p.catchOperationsFrom handlers ops =
      buildFrom p.catchDispatch (fun _ => true) handlers ops := by
  induction handlers with
  | nil => intro ops; rfl
  | cons h rest ih => intro ops; simp only [stepProcessor.catchOperationsFrom, buildFrom, ih]

theorem finallyOperationsFrom_eq (p : stepProcessor) (handlers : List Finally) :
    ∀ ops, p.finallyOperationsFrom handlers ops =
      buildFrom p.finallyDispatch (fun _ => true) handlers ops := by
  induction handlers with
  | nil => intro ops; rfl
  | cons h rest ih => intro ops; simp only [stepProcessor.finallyOperationsFrom, buildFrom, ih]

/-- A successful loop returns the operations it started from followed, directive by
directive, by the operations the directive expanded to, under the flag of the directive. -/
theorem buildFrom_ok {H : Type} (dispatch : H → Built (List operation)) (flag : H → Bool)
    (handlers : List H) :
    ∀ acc ops, (buildFrom dispatch flag handlers acc).2 = .ok ops →
      ∃ chunks : List (List operation), ops = acc ++ chunks.flatten ∧
        List.Forall₂ (fun handler chunk =>
          ∃ loaded, (dispatch handler).2 = .ok loaded ∧ chunk = withFlag (flag handler) loaded)
          handlers chunks := by
  induction handlers with
  | nil =>
    intro acc ops h
    simp only [buildFrom] at h
    cases h
    exact ⟨[], by simp, List.Forall₂.nil⟩
  | cons handler rest ih =>
    intro acc ops h
    simp only [buildFrom] at h
    split at h
    · cases h
    · rename_i reports loaded hd
      obtain ⟨chunks, hops, hall⟩ := ih _ _ h
      refine ⟨withFlag (flag handler) loaded :: chunks, ?_, ?_⟩
      · rw [hops, register_eq]; simp
      · exact List.Forall₂.cons ⟨loaded, by rw [hd], rfl⟩ hall

/-- A loop that fails on the directives before a point fails on the whole list with the same
error. -/
theorem buildFrom_append_error {H : Type} (dispatch : H → Built (List operation))
    (flag : H → Bool) (pre post : List H) :
    ∀ acc err, (buildFrom dispatch flag pre acc).2 = .error err →
      (buildFrom dispatch flag (pre ++ post) acc).2 = .error err := by
  induction pre with
  | nil => intro acc err h; simp [buildFrom] at h
  | cons handler rest ih =>
    intro acc err h
    simp only [buildFrom, List.cons_append] at h ⊢
    split at h
    · exact h
    · exact ih _ _ h

/-- A loop that succeeds on the directives before a point goes on from their operations. -/
theorem buildFrom_append_ok {H : Type} (dispatch : H → Built (List operation))
    (flag : H → Bool) (pre post : List H) :
    ∀ acc ops, (buildFrom dispatch flag pre acc).2 = .ok ops →
      (buildFrom dispatch flag (pre ++ post) acc).2 = (buildFrom dispatch flag post ops).2 := by
  induction pre with
  | nil => intro acc ops h; simp only [buildFrom] at h; cases h; rfl
  | cons handler rest ih =>
    intro acc ops h
    simp only [buildFrom, List.cons_append] at h ⊢
    split at h
    · cases h
    · exact ih _ _ h

/-- A list holding a directive the dispatch refuses is refused; after directives that all
build, the error is that of the dispatch. -/
theorem buildFrom_refused {H : Type} (dispatch : H → Built (List operation))
    (flag : H → Bool) (pre post : List H) (handler : H) (err : String)
    (hd : (dispatch handler).2 = .error err) (acc : List operation) :
    (∃ e, (buildFrom dispatch flag (pre ++ handler :: post) acc).2 = .error e) ∧
      ((∃ ops, (buildFrom dispatch flag pre acc).2 = .ok ops) →
        (buildFrom dispatch flag (pre ++ handler :: post) acc).2 = .error err) := by
  have hone : ∀ ops, (buildFrom dispatch flag (handler :: post) ops).2 = .error err := by
    intro ops
    simp only [buildFrom]
    split
    · rename_i reports e h
      rw [h] at hd
      exact hd
    · rename_i reports loaded h
      rw [h] at hd
      cases hd
  have hcases : ∀ r : Except String (List operation),
      (buildFrom dispatch flag pre acc).2 = r →
      (∃ e, r = .error e) ∨ (∃ ops, r = .ok ops) := by
    intro r _
    cases r with
    | error e => exact Or.inl ⟨e, rfl⟩
    | ok ops => exact Or.inr ⟨ops, rfl⟩
  constructor
  · rcases hcases _ rfl with ⟨e, he⟩ | ⟨ops, hops⟩
    · exact ⟨e, buildFrom_append_error dispatch flag pre _ acc e he⟩
    · exact ⟨err, by rw [buildFrom_append_ok dispatch flag pre _ acc ops hops]; exact hone ops⟩
  · rintro ⟨ops, hops⟩
    rw [buildFrom_append_ok dispatch flag pre _ acc ops hops]
    exact hone ops

theorem isSetTrue_eq (flag : Option Bool) : isSetTrue flag = flag.getD false := by
  cases flag <;> rfl

theorem withFlag_flag (b : Bool) (loaded : List operation) :
    ∀ o ∈ withFlag b loaded, o.continueOnError = b := by
  intro o ho
  simp only [withFlag, List.mem_map] at ho
  obtain ⟨o', _, rfl⟩ := ho
  rfl

theorem buildFrom_all_flag {H : Type} (dispatch : H → Built (List operation)) (b : Bool)
    (handlers : List H) (ops : List operation)
    (h : (buildFrom dispatch (fun _ => b) handlers []).2 = .ok ops) :
    ∀ o ∈ ops, o.continueOnError = b := by
  obtain ⟨chunks, hops, hall⟩ := buildFrom_ok dispatch (fun _ => b) handlers [] ops h
  have hchunks : ∀ chunk ∈ chunks, ∀ o ∈ chunk, o.continueOnError = b := by
    clear hops h
    induction hall with
    | nil => intro chunk hc; simp at hc
    | cons hhead _ ih =>
      intro chunk hc
      rcases List.mem_cons.mp hc with rfl | hc
      · obtain ⟨loaded, _, rfl⟩ := hhead
        exact withFlag_flag b loaded
      · exact ih chunk hc
  intro o ho
  rw [hops] at ho
  simp only [List.nil_append, List.mem_flatten] at ho
  obtain ⟨chunk, hc, hoc⟩ := ho
  exact hchunks chunk hc o hoc

/-- C3: the operations `tryOperations` returns are, directive by directive, the operations
the directive expanded to, each carrying the explicit continue-on-error flag of that directive
(false when the flag is unset); every operation `catchOperations` or `finallyOperations`
returns carries continue-on-error true. -/
theorem continueOnError_by_phase (p : stepProcessor) :
    (∀ (handlers : List Operation) (ops : List operation),
      (p.tryOperations handlers).2 = .ok ops →
      ∃ chunks : List (List operation), ops = chunks.flatten ∧
        List.Forall₂ (fun handler chunk =>
          (∃ loaded, (p.tryDispatch handler).2 = .ok loaded ∧
            chunk = withFlag (handler.ContinueOnError.getD false) loaded) ∧
          ∀ o ∈ chunk, o.continueOnError = handler.ContinueOnError.getD false)
          handlers chunks) ∧
    (∀ (handlers : List Catch) (ops : List operation),
      (p.catchOperations handlers).2 = .ok ops → ∀ o ∈ ops, o.continueOnError = true) ∧
    (∀ (handlers : List Finally) (ops : List operation),
      (p.finallyOperations handlers).2 = .ok ops → ∀ o ∈ ops, o.continueOnError = true) := by
  refine ⟨?_, ?_, ?_⟩
  · intro handlers ops h
    rw [stepProcessor.tryOperations, tryOperationsFrom_eq] at h
    obtain ⟨chunks, hops, hall⟩ := buildFrom_ok _ _ handlers [] ops h
    refine ⟨chunks, by simpa using hops, ?_⟩
    refine List.Forall₂.imp ?_ hall
    rintro handler chunk ⟨loaded, hl, rfl⟩
    rw [isSetTrue_eq]
    exact ⟨⟨loaded, hl, rfl⟩, withFlag_flag _ loaded⟩
  · intro handlers ops h
    rw [stepProcessor.catchOperations, catchOperationsFrom_eq] at h
    exact buildFrom_all_flag _ true handlers ops h
  · intro handlers ops h
    rw [stepProcessor.finallyOperations, finallyOperationsFrom_eq] at h
    exact buildFrom_all_flag _ true handlers ops h

/-- C3 at a try list holding the sample sleep directive, marked continue-on-error. -/
theorem continueOnError_by_phase_witness :
    ∃ chunks : List (List operation), [sleepOperationBuilt] = chunks.flatten ∧
      List.Forall₂ (fun handler chunk =>
        (∃ loaded, ((sampleProcessor none emptyStep).tryDispatch handler).2 = .ok loaded ∧
          chunk = withFlag (handler.ContinueOnError.getD false) loaded) ∧
        ∀ o ∈ chunk, o.continueOnError = handler.ContinueOnError.getD false)
        [sleepDirective] chunks :=
  (continueOnError_by_phase (sampleProcessor none emptyStep)).1 [sleepDirective]
    [sleepOperationBuilt] rfl

theorem tryDispatch_noneSet (p : stepProcessor) (handler : Operation)
    (h : handler.noneSet) : (p.tryDispatch handler).2 = .error "no operation found" := by
  obtain ⟨h1, h2, h3, h4, h5, h6, h7, h8⟩ := h
  simp [stepProcessor.tryDispatch, h1, h2, h3, h4, h5, h6, h7, h8]

theorem catchDispatch_noneSet (p : stepProcessor) (handler : Catch)
    (h : handler.noneSet) : (p.catchDispatch handler).2 = .error "no operation found" := by
  obtain ⟨h1, h2, h3, h4, h5⟩ := h
  simp [stepProcessor.catchDispatch, h1, h2, h3, h4, h5]

theorem finallyDispatch_noneSet (p : stepProcessor) (handler : Finally)
    (h : handler.noneSet) : (p.finallyDispatch handler).2 = .error "no operation found" := by
  obtain ⟨h1, h2, h3, h4, h5⟩ := h
  simp [stepProcessor.finallyDispatch, h1, h2, h3, h4, h5]

/-- C4: for each of `tryOperations`, `catchOperations` and `finallyOperations`, a directive
list holding an element with none of the recognised fields set makes the builder return an
error instead of a list, and when the elements before it build that error is
"no operation found". -/
theorem builders_no_operation_found (p : stepProcessor) :
    (∀ (pre post : List Operation) (handler : Operation), handler.noneSet →
      (∃ e, (p.tryOperations (pre ++ handler :: post)).2 = .error e) ∧
      ((∃ ops, (p.tryOperations pre).2 = .ok ops) →
        (p.tryOperations (pre ++ handler :: post)).2 = .error "no operation found")) ∧
    (∀ (pre post : List Catch) (handler : Catch), handler.noneSet →
      (∃ e, (p.catchOperations (pre ++ handler :: post)).2 = .error e) ∧
      ((∃ ops, (p.catchOperations pre).2 = .ok ops) →
        (p.catchOperations (pre ++ handler :: post)).2 = .error "no operation found")) ∧
    (∀ (pre post : List Finally) (handler : Finally), handler.noneSet →
      (∃ e, (p.finallyOperations (pre ++ handler :: post)).2 = .error e) ∧
      ((∃ ops, (p.finallyOperations pre).2 = .ok ops) →
        (p.finallyOperations (pre ++ handler :: post)).2 = .error "no operation found")) := by
  refine ⟨?_, ?_, ?_⟩
  · intro pre post handler h
    simp only [stepProcessor.tryOperations, tryOperationsFrom_eq]
    exact buildFrom_refused _ _ pre post handler _ (tryDispatch_noneSet p handler h) []
  · intro pre post handler h
    simp only [stepProcessor.catchOperations, catchOperationsFrom_eq]
    exact buildFrom_refused _ _ pre post handler _ (catchDispatch_noneSet p handler h) []
  · intro pre post handler h
    simp only [stepProcessor.finallyOperations, finallyOperationsFrom_eq]
    exact buildFrom_refused _ _ pre post handler _ (finallyDispatch_noneSet p handler h) []

/-- C4 at a try list whose second directive has no field set. -/
theorem builders_no_operation_found_witness :
    ((sampleProcessor none emptyStep).tryOperations
      ([sleepDirective] ++ blankOperation :: [applyDirective])).2 =
        .error "no operation found" :=
  ((builders_no_operation_found (sampleProcessor none emptyStep)).1 [sleepDirective]
    [applyDirective] blankOperation ⟨rfl, rfl, rfl, rfl, rfl, rfl, rfl, rfl⟩).2
    ⟨[sleepOperationBuilt], rfl⟩

/-- C10 fails on the code for apply and create: the report handle of the directive is created
and added to the step report, yet the operation built carries none; the operation built for
an assert directive carries its handle. -/
theorem apply_create_report_not_attached :
    ((sampleProcessor none emptyStep).tryOperations [applyDirective]).1 =
        [NewOperation "Apply " OperationType.Apply] ∧
      attachedReports ((sampleProcessor none emptyStep).tryOperations [applyDirective]) =
        some [none] ∧
      ((sampleProcessor none emptyStep).tryOperations [createDirective]).1 =
        [NewOperation "Create " OperationType.Create] ∧
      attachedReports ((sampleProcessor none emptyStep).tryOperations [createDirective]) =
        some [none] ∧
      attachedReports ((sampleProcessor none emptyStep).tryOperations [assertDirective]) =
        some [some (NewOperation "Assert " OperationType.Assert)] :=
  ⟨rfl, rfl, rfl, rfl, rfl⟩

/-! ### Running a step -/

theorem executed_append (a b : List Event) : executed (a ++ b) = executed a ++ executed b := by
  induction a with
  | nil => rfl
  | cons e rest ih => cases e <;> simp [executed, ih]

theorem executed_exec (evs : List (operation × Option String)) :
    executed (evs.map (fun e => Event.exec e.1 e.2)) = evs := by
  induction evs with
  | nil => rfl
  | cons e rest ih => simp [executed, ih]

/-- What a loop of executions does to the state: it appends the executions of a leading part
of the list, marks the test failed when one of them fails, stops early only after a failure
of an operation not marked continue-on-error, and touches neither the cleanup stack nor the
step report. -/
theorem executeAll_spec (run : operation → W → Option String × W) (ops : List operation) :
    ∀ t : RunState W, ∃ evs : List (operation × Option String),
      (executeAll run ops t).2.events = t.events ++ evs.map (fun e => Event.exec e.1 e.2) ∧
      evs.map Prod.fst <+: ops ∧
      (executeAll run ops t).2.failed = (t.failed || evs.any (fun e => e.2.isSome)) ∧
      (executeAll run ops t).2.cleanups = t.cleanups ∧
      (executeAll run ops t).2.reports = t.reports ∧
      (evs.map Prod.fst = ops ∨ ∃ front last, evs = front ++ [last] ∧
        last.2.isSome = true ∧ last.1.continueOnError = false) ∧
      ((∀ o ∈ ops, o.continueOnError = true) → evs.map Prod.fst = ops) := by
  induction ops with
  | nil =>
    intro t
    exact ⟨[], by simp [executeAll], by simp, by simp [executeAll], rfl, rfl, Or.inl rfl,
      fun _ => rfl⟩
  | cons o rest ih =>
    intro t
    simp only [executeAll, operation.execute]
    cases hr : (run o t.world).1 with
    | none =>
      obtain ⟨evs, h1, h2, h3, h4, h5, h6, h7⟩ :=
        ih { t with world := (run o t.world).2, events := t.events ++ [Event.exec o none] }
      refine ⟨(o, none) :: evs, ?_, ?_, ?_, ?_, ?_, ?_, ?_⟩
      · simp [h1]
      · simpa using h2
      · simp [h3]
      · simp [h4]
      · simp [h5]
      · rcases h6 with h6 | ⟨front, last, hfl, hl1, hl2⟩
        · exact Or.inl (by simp [h6])
        · exact Or.inr ⟨(o, none) :: front, last, by simp [hfl], hl1, hl2⟩
      · intro hall
        simp [h7 (fun o' ho' => hall o' (List.mem_cons_of_mem _ ho'))]
    | some err =>
      by_cases hc : o.continueOnError = true
      · obtain ⟨evs, h1, h2, h3, h4, h5, h6, h7⟩ :=
          ih ({ t with world := (run o t.world).2,
                       events := t.events ++ [Event.exec o (some err)] }).Fail
        simp only [RunState.Fail] at h1 h3 h4 h5
        refine ⟨(o, some err) :: evs, ?_, ?_, ?_, ?_, ?_, ?_, ?_⟩
        · simp [hc, h1, RunState.Fail]
        · simpa using h2
        · simp [hc, h3, RunState.Fail]
        · simp [hc, h4, RunState.Fail]
        · simp [hc, h5, RunState.Fail]
        · rcases h6 with h6 | ⟨front, last, hfl, hl1, hl2⟩
          · exact Or.inl (by simp [h6])
          · exact Or.inr ⟨(o, some err) :: front, last, by simp [hfl], hl1, hl2⟩
        · intro hall
          simp [h7 (fun o' ho' => hall o' (List.mem_cons_of_mem _ ho'))]
      · refine ⟨[(o, some err)], ?_, ?_, ?_, ?_, ?_, ?_, ?_⟩
        · simp [hc, RunState.Fail]
        · simp
        · simp [hc, RunState.Fail]
        · simp [hc, RunState.Fail]
        · simp [hc, RunState.Fail]
        · exact Or.inr ⟨[], (o, some err), rfl, rfl, by simpa using hc⟩
        · intro hall
          exact absurd (hall o (List.mem_cons_self _ _)) hc

theorem runCleanups_append (run : operation → W → Option String × W)
    (fs gs : List CleanupFn) :
    ∀ t : RunState W, runCleanups run (fs ++ gs) t = runCleanups run gs (runCleanups run fs t) := by
  induction fs with
  | nil => intro t; rfl
  | cons f rest ih => intro t; simp [runCleanups, ih]

/-- A cleanup function over operations all marked continue-on-error executes every one of
them, in order, and leaves the cleanup stack as it was. -/
theorem CleanupFn_call_spec (run : operation → W → Option String × W) (f : CleanupFn)
    (ops : List operation) (hf : f = CleanupFn.catchOps ops ∨ f = CleanupFn.finallyOps ops)
    (hall : ∀ o ∈ ops, o.continueOnError = true) (t : RunState W) :
    ∃ evs : List (operation × Option String), evs.map Prod.fst = ops ∧
      executed (f.call run t).events = executed t.events ++ evs ∧
      (f.call run t).cleanups = t.cleanups := by
  rcases hf with rfl | rfl
  · obtain ⟨evs, h1, -, -, h4, -, -, h7⟩ :=
      executeAll_spec run ops (t.log Phase.Catch Status.RunStatus none)
    simp only [RunState.log] at h1 h4
    refine ⟨evs, h7 hall, ?_, ?_⟩
    · simp [CleanupFn.call, RunState.log, h1, executed_append, executed_exec, executed]
    · simp [CleanupFn.call, RunState.log, h4]
  · obtain ⟨evs, h1, -, -, h4, -, -, h7⟩ :=
      executeAll_spec run ops (t.log Phase.Finally Status.RunStatus none)
    simp only [RunState.log] at h1 h4
    refine ⟨evs, h7 hall, ?_, ?_⟩
    · simp [CleanupFn.call, RunState.log, h1, executed_append, executed_exec, executed]
    · simp [CleanupFn.call, RunState.log, h4]

/-- C2: when building the try list, the catch list or the finally list returns an error,
`Run` ends in `FailNow` with the test marked failed, no operation of any phase has been
executed, the world is untouched, and nothing has been registered for the end of the test. -/
theorem Run_build_error (p : stepProcessor) (run : operation → W → Option String × W)
    (t : RunState W)
    (h : (∃ e, (p.tryOperations p.step.TestStepSpec.Try).2 = .error e) ∨
      (∃ e, (p.catchOperations p.step.TestStepSpec.Catch).2 = .error e) ∨
      (∃ e, (p.finallyOperations p.step.TestStepSpec.Finally).2 = .error e)) :
    (p.Run run t).1 = Flow.goexit ∧ (p.Run run t).2.failed = true ∧
      executed (p.Run run t).2.events = executed t.events ∧
      (p.Run run t).2.cleanups = t.cleanups ∧ (p.Run run t).2.world = t.world := by
  simp only [stepProcessor.Run]
  split
  · simp [RunState.Fail, RunState.log, RunState.addReports, executed_append, executed]
  · rename_i r1 tryOps h1
    split
    · simp [RunState.Fail, RunState.log, RunState.addReports, executed_append, executed]
    · rename_i r2 catchOps h2
      split
      · simp [RunState.Fail, RunState.log, RunState.addReports, executed_append, executed]
      · rename_i r3 finallyOps h3
        rw [h1, h2, h3] at h
        simp at h

/-- C2 at a step whose catch list holds a directive with no field set: the sleep operation
of its try list, built without error, is not executed. -/
theorem Run_build_error_witness :
    ((sampleProcessor none blankCatchStep).Run succeed freshState).1 = Flow.goexit ∧
      ((sampleProcessor none blankCatchStep).Run succeed freshState).2.failed = true ∧
      executed ((sampleProcessor none blankCatchStep).Run succeed freshState).2.events =
        executed freshState.events ∧
      ((sampleProcessor none blankCatchStep).Run succeed freshState).2.cleanups =
        freshState.cleanups ∧
      ((sampleProcessor none blankCatchStep).Run succeed freshState).2.world =
        freshState.world :=
  Run_build_error (sampleProcessor none blankCatchStep) succeed freshState
    (Or.inr (Or.inl ⟨"no operation found", rfl⟩))

/-- The state a run ends in when the three lists build: the state after the try loop and its
closing log line, with the cleanup functions of the step on top of the stack. -/
theorem Run_built (p : stepProcessor) (run : operation → W → Option String × W)
    (t : RunState W) (r1 r2 r3 : List OperationReport)
    (tryOps catchOps finallyOps : List operation)
    (h1 : p.tryOperations p.step.TestStepSpec.Try = (r1, .ok tryOps))
    (h2 : p.catchOperations p.step.TestStepSpec.Catch = (r2, .ok catchOps))
    (h3 : p.finallyOperations p.step.TestStepSpec.Finally = (r3, .ok finallyOps)) :
    ∃ tried : Flow × RunState W,
      tried = executeAll run tryOps
        ((((t.addReports r1).addReports r2).addReports r3).log Phase.Try Status.RunStatus none) ∧
      (p.Run run t).2 =
        { tried.2.log Phase.Try Status.DoneStatus none with
          cleanups := scheduled tried.2.failed catchOps finallyOps ++ tried.2.cleanups } := by
  refine ⟨_, rfl, ?_⟩
  simp only [stepProcessor.Run, h1, h2, h3, scheduled]
  generalize executeAll run tryOps ((((t.addReports r1).addReports r2).addReports r3).log
    Phase.Try Status.RunStatus none) = tried
  obtain ⟨flow, T⟩ := tried
  by_cases hf : finallyOps.length ≠ 0 <;> by_cases hc : catchOps.length ≠ 0 <;>
    cases hfail : T.failed <;> simp [hf, hc, hfail, RunState.Cleanup, RunState.log]

/-- Calling the cleanup functions of a step executes the catch operations when the test is
marked failed, then the finally operations, each list whole and in order. -/
theorem runCleanups_scheduled (run : operation → W → Option String × W) (failed : Bool)
    (catchOps finallyOps : List operation)
    (hcatch : ∀ o ∈ catchOps, o.continueOnError = true)
    (hfinally : ∀ o ∈ finallyOps, o.continueOnError = true) (t : RunState W) :
    ∃ caught closed : List (operation × Option String),
      caught.map Prod.fst = (if failed = true then catchOps else []) ∧
      closed.map Prod.fst = finallyOps ∧
      executed (runCleanups run (scheduled failed catchOps finallyOps) t).events =
        executed t.events ++ caught ++ closed ∧
      (runCleanups run (scheduled failed catchOps finallyOps) t).cleanups = t.cleanups := by
  have hrun : ∀ (ops : List operation) (f : CleanupFn) (t : RunState W),
      (f = CleanupFn.catchOps ops ∨ f = CleanupFn.finallyOps ops) →
      (∀ o ∈ ops, o.continueOnError = true) →
      ∃ evs : List (operation × Option String), evs.map Prod.fst = ops ∧
        executed (runCleanups run (if ops.length ≠ 0 then [f] else []) t).events =
          executed t.events ++ evs ∧
        (runCleanups run (if ops.length ≠ 0 then [f] else []) t).cleanups = t.cleanups := by
    intro ops f t hf hall
    by_cases hl : ops.length ≠ 0
    · obtain ⟨evs, he1, he2, he3⟩ := CleanupFn_call_spec run f ops hf hall t
      exact ⟨evs, he1, by simp [hl, runCleanups, he2], by simp [hl, runCleanups, he3]⟩
    · have hnil : ops = [] := List.length_eq_zero.mp (not_not.mp hl)
      exact ⟨[], by simp [hnil], by simp [hl, runCleanups], by simp [hl, runCleanups]⟩
  unfold scheduled
  rw [runCleanups_append]
  cases failed with
  | false =>
    obtain ⟨closed, hc1, hc2, hc3⟩ := hrun finallyOps (CleanupFn.finallyOps finallyOps) t
      (Or.inr rfl) hfinally
    refine ⟨[], closed, by simp, hc1, ?_, ?_⟩
    · simpa [runCleanups] using hc2
    · simpa [runCleanups] using hc3
  | true =>
    obtain ⟨caught, ha1, ha2, ha3⟩ := hrun catchOps (CleanupFn.catchOps catchOps) t
      (Or.inl rfl) hcatch
    obtain ⟨closed, hc1, hc2, hc3⟩ := hrun finallyOps (CleanupFn.finallyOps finallyOps)
      (runCleanups run (if catchOps.length ≠ 0 then [CleanupFn.catchOps catchOps] else []) t)
      (Or.inr rfl) hfinally
    refine ⟨caught, closed, by simp [ha1], hc1, ?_, ?_⟩
    · simp only [if_true] at hc2 ⊢
      rw [hc2, ha2]
    · simp only [if_true] at hc3 ⊢
      rw [hc3, ha3]

/-- C1, as the code has it: when the three lists of a step build, `Run` executes a leading
part of the try operations in list order (all of them unless an operation not marked
continue-on-error fails); at the end of the test the catch operations are executed if and only
if the test is marked failed when the try phase ends, that is, it was marked failed before the
step or a try operation failed; the finally operations are executed in every case, after every
catch operation; the cleanup functions registered before the step are called after those of
the step. -/
theorem Run_phases (p : stepProcessor) (run : operation → W → Option String × W)
    (t : RunState W) (tryOps catchOps finallyOps : List operation)
    (hTry : (p.tryOperations p.step.TestStepSpec.Try).2 = .ok tryOps)
    (hCatch : (p.catchOperations p.step.TestStepSpec.Catch).2 = .ok catchOps)
    (hFinally : (p.finallyOperations p.step.TestStepSpec.Finally).2 = .ok finallyOps) :
    ∃ tried caught closed : List (operation × Option String),
      tried.map Prod.fst <+: tryOps ∧
      (tried.map Prod.fst = tryOps ∨ ∃ front last, tried = front ++ [last] ∧
        last.2.isSome = true ∧ last.1.continueOnError = false) ∧
      caught.map Prod.fst =
        (if (t.failed || tried.any (fun e => e.2.isSome)) = true then catchOps else []) ∧
      closed.map Prod.fst = finallyOps ∧
      executed (p.Run run t).2.events = executed t.events ++ tried ∧
      ∃ t' : RunState W, t'.cleanups = [] ∧
        executed t'.events = executed t.events ++ tried ++ caught ++ closed ∧
        teardown run (p.Run run t).2 = runCleanups run t.cleanups t' := by
  have hcatchFlag : ∀ o ∈ catchOps, o.continueOnError = true := by
    rw [stepProcessor.catchOperations, catchOperationsFrom_eq] at hCatch
    exact buildFrom_all_flag _ true _ catchOps hCatch
  have hfinallyFlag : ∀ o ∈ finallyOps, o.continueOnError = true := by
    rw [stepProcessor.finallyOperations, finallyOperationsFrom_eq] at hFinally
    exact buildFrom_all_flag _ true _ finallyOps hFinally
  rcases h1 : p.tryOperations p.step.TestStepSpec.Try with ⟨r1, res1⟩
  rw [h1] at hTry
  simp only at hTry
  subst hTry
  rcases h2 : p.catchOperations p.step.TestStepSpec.Catch with ⟨r2, res2⟩
  rw [h2] at hCatch
  simp only at hCatch
  subst hCatch
  rcases h3 : p.finallyOperations p.step.TestStepSpec.Finally with ⟨r3, res3⟩
  rw [h3] at hFinally
  simp only at hFinally
  subst hFinally
  obtain ⟨T, hT, hRun⟩ := Run_built p run t r1 r2 r3 tryOps catchOps finallyOps h1 h2 h3
  obtain ⟨tried, e1, e2, e3, e4, -, e6, -⟩ := executeAll_spec run tryOps
    ((((t.addReports r1).addReports r2).addReports r3).log Phase.Try Status.RunStatus none)
  rw [← hT] at e1 e3 e4
  simp only [RunState.log, RunState.addReports] at e1 e3 e4
  obtain ⟨caught, closed, c1, c2, c3, c4⟩ := runCleanups_scheduled run T.2.failed catchOps
    finallyOps hcatchFlag hfinallyFlag
    { T.2.log Phase.Try Status.DoneStatus none with cleanups := [] }
  have hevents : executed (T.2.events ++ [Event.log Phase.Try Status.DoneStatus none]) =
      executed t.events ++ tried := by
    rw [e1]
    simp [executed_append, executed_exec, executed]
  refine ⟨tried, caught, closed, e2, e6, ?_, c2, ?_, _, c4, ?_, ?_⟩
  · rw [c1, e3]
  · rw [hRun]
    simpa [RunState.log] using hevents
  · rw [c3]
    simp only [RunState.log]
    rw [hevents]
  · rw [hRun, teardown]
    simp only [RunState.log]
    rw [runCleanups_append, e4]

/-- C1 at the sample step run in a test already marked failed: the sleep operation of the try
list and then the command of the catch list are executed. -/
theorem Run_phases_witness :
    ∃ tried caught closed : List (operation × Option String),
      tried.map Prod.fst <+: [sleepOperationBuilt] ∧
      caught.map Prod.fst =
        (if (failedState.failed || tried.any (fun e => e.2.isSome)) = true
          then [commandOperationBuilt] else []) ∧
      closed.map Prod.fst = [] ∧
      ∃ t' : RunState Unit, t'.cleanups = [] ∧
        executed t'.events = executed failedState.events ++ tried ++ caught ++ closed ∧
        teardown succeed ((sampleProcessor none sleepThenCatchStep).Run succeed failedState).2 =
          runCleanups succeed failedState.cleanups t' := by
  obtain ⟨tried, caught, closed, h1, -, h3, h4, -, t', h6, h7, h8⟩ :=
    Run_phases (sampleProcessor none sleepThenCatchStep) succeed failedState
      [sleepOperationBuilt] [commandOperationBuilt] [] rfl rfl rfl
  exact ⟨tried, caught, closed, h1, h3, h4, t', h6, h7, h8⟩

/-- C1 fails as stated: in a test already marked failed, the step whose only try operation
succeeds still has its catch operation executed at the end of the test, though the try phase
reported no failure. -/
theorem Run_catch_counterexample :
    ((sampleProcessor none sleepThenCatchStep).tryOperations sleepThenCatchStep.Try).2 =
        .ok [sleepOperationBuilt] ∧
      ((sampleProcessor none sleepThenCatchStep).catchOperations sleepThenCatchStep.Catch).2 =
        .ok [commandOperationBuilt] ∧
      executed ((sampleProcessor none sleepThenCatchStep).Run succeed failedState).2.events =
        [(sleepOperationBuilt, none)] ∧
      executed (teardown succeed
        ((sampleProcessor none sleepThenCatchStep).Run succeed failedState).2).events =
        [(sleepOperationBuilt, none), (commandOperationBuilt, none)] :=
  ⟨rfl, rfl, rfl, rfl⟩

/-! ### The error operation -/

namespace operror

theorem checkCandidates_eq (c : Checker) (candidates : List Unstructured) :
    ∀ errs, checkCandidates c candidates errs =
      match firstCheckError c candidates with
      | some err => .error err
      | none => .ok (errs ++ violations c candidates) := by
  induction candidates with
  | nil => intro errs; simp [checkCandidates, firstCheckError, violations]
  | cons candidate rest ih =>
    intro errs
    simp only [checkCandidates, firstCheckError]
    cases hc : c.Check candidate with
    | error err => rfl
    | ok mismatches =>
      by_cases hm : mismatches.length = 0
      · simp only [hm, if_true, ih]
        cases firstCheckError c rest with
        | some err => rfl
        | none => simp [violations, List.filter, matchesExpected, hc, hm]
      · simp only [hm, if_false, ih]
        cases firstCheckError c rest with
        | some err => rfl
        | none => simp [violations, List.filter, matchesExpected, hc, hm]

/-- An iteration with a hard error returns it and leaves the recorded violations alone. -/
theorem condition_hard (c : Checker) (fetched : Except Err (List Unstructured))
    (lastErrs : List Err) (err : Err) (h : hardError c fetched = some err) :
    condition c fetched lastErrs = ((false, some err), lastErrs) := by
  cases fetched with
  | error e =>
    simp only [hardError] at h
    by_cases hn : IsNotFound e = true
    · simp [hn] at h
    · simp [hn] at h
      subst h
      simp [condition, hn]
  | ok candidates =>
    simp only [hardError] at h
    cases candidates with
    | nil => simp [firstCheckError] at h
    | cons candidate rest => simp [condition, checkCandidates_eq, h]

/-- An iteration without a hard error returns no error, records its violations, and succeeds
exactly when there are none. -/
theorem condition_completed (c : Checker) (fetched : Except Err (List Unstructured))
    (lastErrs : List Err) (h : hardError c fetched = none) :
    condition c fetched lastErrs =
      match fetched with
      | .error _ => ((true, none), [])
      | .ok candidates =>
        (((violations c candidates).isEmpty, none), violations c candidates) := by
  cases fetched with
  | error e =>
    simp only [hardError] at h
    by_cases hn : IsNotFound e = true
    · simp [condition, hn]
    · simp [hn] at h
  | ok candidates =>
    simp only [hardError] at h
    cases candidates with
    | nil => simp [condition, violations]
    | cons candidate rest =>
      simp only [condition, checkCandidates_eq, h, List.nil_append, List.length_cons]
      cases violations c (candidate :: rest) <;> simp

theorem condition_pending (c : Checker) (fetched : Except Err (List Unstructured))
    (lastErrs : List Err) (h : pending c fetched) :
    ∃ candidates, fetched = .ok candidates ∧
      condition c fetched lastErrs = ((false, none), violations c candidates) := by
  obtain ⟨candidates, rfl, hcheck, hv⟩ := h
  refine ⟨candidates, rfl, ?_⟩
  rw [condition_completed c (.ok candidates) lastErrs hcheck]
  simp [hv]

/-- Iterations that complete with violations keep the loop going; the violations recorded are
those of the last one. -/
theorem poll_pending (c : Checker) (ctxErr : Err) (candidates : List Unstructured)
    (rest : List (Except Err (List Unstructured)))
    (hlast : pending c (.ok candidates)) :
    ∀ (pre : List (Except Err (List Unstructured))) (st : List Err),
      (∀ g ∈ pre, pending c g) →
      PollUntilContextCancel ctxErr (condition c) (pre ++ .ok candidates :: rest) st =
        PollUntilContextCancel ctxErr (condition c) rest (violations c candidates) := by
  intro pre
  induction pre with
  | nil =>
    intro st _
    obtain ⟨cs, hcs, hcond⟩ := condition_pending c _ st hlast
    cases hcs
    simp only [List.nil_append, PollUntilContextCancel, hcond]
  | cons g pre ih =>
    intro st hpre
    obtain ⟨cs, hcs, hcond⟩ := condition_pending c g st (hpre g (List.mem_cons_self _ _))
    simp only [List.cons_append, PollUntilContextCancel, hcond]
    exact ih _ (fun g' hg' => hpre g' (List.mem_cons_of_mem _ hg'))

/-- A loop that ends with an error ran iterations that all completed with violations, and
then met the end of the context or an iteration with a hard error. -/
theorem poll_error_shape (c : Checker) (ctxErr : Err)
    (fetches : List (Except Err (List Unstructured))) :
    ∀ (st : List Err) (err : Err),
      (PollUntilContextCancel ctxErr (condition c) fetches st).err = some err →
      ∃ ran post, (∀ g ∈ ran, pending c g) ∧
        ((fetches = ran ∧ post = [] ∧ err = ctxErr) ∨
          ∃ f, fetches = ran ++ f :: post ∧ hardError c f = some err) := by
  induction fetches with
  | nil =>
    intro st err h
    simp only [PollUntilContextCancel, Option.some.injEq] at h
    exact ⟨[], [], by simp, Or.inl ⟨rfl, rfl, h.symm⟩⟩
  | cons f rest ih =>
    intro st err h
    cases hh : hardError c f with
    | some e =>
      simp only [PollUntilContextCancel, condition_hard c f st e hh, Option.some.injEq] at h
      subst h
      exact ⟨[], rest, by simp, Or.inr ⟨f, rfl, hh⟩⟩
    | none =>
      simp only [PollUntilContextCancel, condition_completed c f st hh] at h
      cases f with
      | error e => simp at h
      | ok candidates =>
        simp only at h
        cases hv : violations c candidates with
        | nil => simp [hv] at h
        | cons v vs =>
          simp only [hv, List.isEmpty_cons] at h
          obtain ⟨ran, post, hran, hshape⟩ := ih _ err h
          have hp : pending c (.ok candidates) := ⟨candidates, rfl, hh, by simp [hv]⟩
          refine ⟨.ok candidates :: ran, post, ?_, ?_⟩
          · intro g hg
            rcases List.mem_cons.mp hg with rfl | hg
            · exact hp
            · exact hran g hg
          · rcases hshape with ⟨h1, h2, h3⟩ | ⟨f', h1, h2⟩
            · exact Or.inl ⟨by rw [h1], h2, h3⟩
            · exact Or.inr ⟨f', by rw [h1]; rfl, h2⟩

/-- The loop at its end: the context is done, or the next iteration has a hard error. -/
theorem poll_end (c : Checker) (ctxErr err : Err)
    (ending post : List (Except Err (List Unstructured)))
    (h : (ending = [] ∧ post = [] ∧ err = ctxErr) ∨
      ∃ f, ending = f :: post ∧ hardError c f = some err) (st : List Err) :
    PollUntilContextCancel ctxErr (condition c) ending st =
      { err := some err, state := st, rest := post } := by
  rcases h with ⟨rfl, rfl, rfl⟩ | ⟨f, rfl, hf⟩
  · rfl
  · simp only [PollUntilContextCancel, condition_hard c f st err hf]

theorem violations_eq_nil (c : Checker) (candidates : List Unstructured)
    (hcheck : firstCheckError c candidates = none) :
    violations c candidates = [] ↔ ∀ candidate ∈ candidates, c.Check candidate ≠ .ok [] := by
  induction candidates with
  | nil => simp [violations]
  | cons candidate rest ih =>
    simp only [firstCheckError] at hcheck
    cases hc : c.Check candidate with
    | error err => simp [hc] at hcheck
    | ok mismatches =>
      simp only [hc] at hcheck
      have ih' := ih hcheck
      simp only [violations] at ih' ⊢
      cases mismatches with
      | nil => simp [List.filter, matchesExpected, hc]
      | cons m ms => simpa [List.filter, matchesExpected, hc] using ih'

/-- C5: an iteration of the poll condition in which neither the fetch nor a structural check
returns a hard error returns no error, and reports success if and only if the fetch returned
not-found, or the candidate list is empty, or no candidate has an empty mismatch list; and
when the first fetch yields no candidate, `execute` returns success after that one iteration,
asking for no further fetch. -/
theorem condition_success_iff (c : Checker) (fetched : Except Err (List Unstructured))
    (lastErrs : List Err) (h : hardError c fetched = none) :
    (condition c fetched lastErrs).1.2 = none ∧
      ((condition c fetched lastErrs).1.1 = true ↔
        ((∃ err, fetched = .error err ∧ IsNotFound err = true) ∨ fetched = .ok [] ∨
          ∃ candidates, fetched = .ok candidates ∧
            ∀ candidate ∈ candidates, c.Check candidate ≠ .ok [])) ∧
      (∀ (ctxErr : Err) (rest : List (Except Err (List Unstructured))),
        execute c ctxErr (.ok [] :: rest) = (none, rest)) := by
  refine ⟨?_, ?_, ?_⟩
  · rw [condition_completed c fetched lastErrs h]
    cases fetched <;> rfl
  · rw [condition_completed c fetched lastErrs h]
    cases fetched with
    | error e =>
      simp only [hardError] at h
      by_cases hn : IsNotFound e = true
      · simp [hn]
      · simp [hn] at h
    | ok candidates =>
      simp only [hardError] at h
      simp only [List.isEmpty_iff, violations_eq_nil c candidates h]
      constructor
      · intro hall
        exact Or.inr (Or.inr ⟨candidates, rfl, hall⟩)
      · rintro (⟨err, herr, -⟩ | hnil | ⟨cs, hcs, hall⟩)
        · cases herr
        · cases hnil
          simp
        · cases hcs
          exact hall
  · intro ctxErr rest
    simp [execute, PollUntilContextCancel, condition]

/-- C5 at an iteration whose fetch returns one candidate that fully matches: it returns no
error. -/
theorem condition_success_iff_witness :
    (condition matchAll (.ok [samplePod]) []).1.2 = none :=
  (condition_success_iff matchAll (.ok [samplePod]) [] rfl).1

/-- C6: when the poll loop ends with an error, the iterations it ran all completed with
violations and the loop then met the end of the context or an iteration with a hard error; if
it ran none, `execute` returns the error of the loop, and otherwise it returns the combination
of the violation entries of the last of them: one entry per candidate whose mismatch list was
empty, in candidate order, each naming the candidate as apiVersion/kind/name. -/
theorem execute_error_result (c : Checker) (ctxErr : Err)
    (fetches : List (Except Err (List Unstructured))) (err : Err)
    (h : (PollUntilContextCancel ctxErr (condition c) fetches []).err = some err) :
    ∃ ran post, (∀ g ∈ ran, pending c g) ∧
      ((fetches = ran ∧ post = [] ∧ err = ctxErr) ∨
        ∃ f, fetches = ran ++ f :: post ∧ hardError c f = some err) ∧
      ((ran = [] ∧ execute c ctxErr fetches = (some err, post)) ∨
        ∃ pre candidates, ran = pre ++ [.ok candidates] ∧
          violations c candidates =
            (candidates.filter (matchesExpected c)).map
              (fun candidate => Err.errorf (GetAPIVersion candidate ++ "/" ++
                candidate.GetKind ++ "/" ++ c.Name candidate ++
                " - resource matches expectation")) ∧
          (∀ candidate, matchesExpected c candidate = true ↔ c.Check candidate = .ok []) ∧
          violations c candidates ≠ [] ∧
          execute c ctxErr fetches = (Combine (violations c candidates), post)) := by
  obtain ⟨ran, post, hran, hshape⟩ := poll_error_shape c ctxErr fetches [] err h
  refine ⟨ran, post, hran, hshape, ?_⟩
  have hending : ∃ ending, fetches = ran ++ ending ∧
      ((ending = [] ∧ post = [] ∧ err = ctxErr) ∨
        ∃ f, ending = f :: post ∧ hardError c f = some err) := by
    rcases hshape with ⟨h1, h2, h3⟩ | ⟨f, h1, h2⟩
    · exact ⟨[], by simp [h1], Or.inl ⟨rfl, h2, h3⟩⟩
    · exact ⟨f :: post, h1, Or.inr ⟨f, rfl, h2⟩⟩
  obtain ⟨ending, hfetches, hend⟩ := hending
  rcases List.eq_nil_or_concat ran with hnil | ⟨pre, last, hlast⟩
  · left
    refine ⟨hnil, ?_⟩
    subst hnil
    simp only [List.nil_append] at hfetches
    subst hfetches
    simp [execute, poll_end c ctxErr err fetches post hend []]
  · right
    rw [List.concat_eq_append] at hlast
    have hp : pending c last := hran last (by simp [hlast])
    obtain ⟨candidates, rfl, hcheck, hv⟩ := hp
    refine ⟨pre, candidates, hlast, rfl, ?_, hv, ?_⟩
    · intro candidate
      simp only [matchesExpected]
      cases hc : c.Check candidate with
      | error e => simp
      | ok mismatches => cases mismatches <;> simp
    · have hpre : ∀ g ∈ pre, pending c g := fun g hg => hran g (by simp [hlast, hg])
      have hpoll := poll_pending c ctxErr candidates ending ⟨candidates, rfl, hcheck, hv⟩
        pre [] hpre
      rw [hlast, List.append_assoc, List.singleton_append] at hfetches
      rw [hfetches]
      simp only [execute, hpoll, poll_end c ctxErr err ending post hend]
      have hlen : (violations c candidates).length ≠ 0 := by
        simpa [List.length_eq_zero] using hv
      simp [hlen]

/-- C6 at a single iteration with one matching candidate, after which the deadline passes. -/
theorem execute_error_result_witness :
    ∃ ran post, (∀ g ∈ ran, pending matchAll g) ∧
      (([.ok [samplePod]] = ran ∧ post = [] ∧ deadlineExceeded = deadlineExceeded) ∨
        ∃ f, [.ok [samplePod]] = ran ++ f :: post ∧
          hardError matchAll f = some deadlineExceeded) ∧
      ((ran = [] ∧
          execute matchAll deadlineExceeded [.ok [samplePod]] = (some deadlineExceeded, post)) ∨
        ∃ pre candidates, ran = pre ++ [.ok candidates] ∧
          violations matchAll candidates =
            (candidates.filter (matchesExpected matchAll)).map
              (fun candidate => Err.errorf (GetAPIVersion candidate ++ "/" ++
                candidate.GetKind ++ "/" ++ matchAll.Name candidate ++
                " - resource matches expectation")) ∧
          (∀ candidate,
            matchesExpected matchAll candidate = true ↔ matchAll.Check candidate = .ok []) ∧
          violations matchAll candidates ≠ [] ∧
          execute matchAll deadlineExceeded [.ok [samplePod]] =
            (Combine (violations matchAll candidates), post)) :=
  execute_error_result matchAll deadlineExceeded [.ok [samplePod]] deadlineExceeded rfl

/-- C7, as the code has it: when the iterations run so far all completed with violations and
the next one meets a hard error, polling stops at that iteration; `execute` returns that error
when it is the first iteration, and otherwise returns the combination of the violation entries
of the iteration before it. -/
theorem execute_hard_error (c : Checker) (ctxErr : Err)
    (ran post : List (Except Err (List Unstructured))) (f : Except Err (List Unstructured))
    (err : Err) (hran : ∀ g ∈ ran, pending c g) (hf : hardError c f = some err) :
    (execute c ctxErr (ran ++ f :: post)).2 = post ∧
      (ran = [] → (execute c ctxErr (ran ++ f :: post)).1 = some err) ∧
      (∀ pre candidates, ran = pre ++ [.ok candidates] →
        (execute c ctxErr (ran ++ f :: post)).1 = Combine (violations c candidates)) := by
  have hend : (f :: post = [] ∧ post = [] ∧ err = ctxErr) ∨
      ∃ f', f :: post = f' :: post ∧ hardError c f' = some err := Or.inr ⟨f, rfl, hf⟩
  rcases List.eq_nil_or_concat ran with hnil | ⟨pre, last, hlast⟩
  · subst hnil
    refine ⟨?_, ?_, ?_⟩
    · simp [execute, poll_end c ctxErr err (f :: post) post hend []]
    · intro _
      simp [execute, poll_end c ctxErr err (f :: post) post hend []]
    · intro pre candidates hpre
      simp at hpre
  · rw [List.concat_eq_append] at hlast
    have hp : pending c last := hran last (by simp [hlast])
    obtain ⟨candidates, rfl, hcheck, hv⟩ := hp
    have hpre : ∀ g ∈ pre, pending c g := fun g hg => hran g (by simp [hlast, hg])
    have hpoll := poll_pending c ctxErr candidates (f :: post) ⟨candidates, rfl, hcheck, hv⟩
      pre [] hpre
    have hlen : (violations c candidates).length ≠ 0 := by
      simpa [List.length_eq_zero] using hv
    have hexec : execute c ctxErr (ran ++ f :: post) =
        (Combine (violations c candidates), post) := by
      rw [hlast, List.append_assoc, List.singleton_append]
      simp only [execute, hpoll, poll_end c ctxErr err (f :: post) post hend]
      simp [hlen]
    refine ⟨by rw [hexec], ?_, ?_⟩
    · intro hnil
      simp [hlast] at hnil
    · intro pre' candidates' hran'
      rw [hlast] at hran'
      obtain ⟨-, hc⟩ := List.append_inj' hran' rfl
      simp only [List.cons.injEq, Except.ok.injEq, and_true] at hc
      subst hc
      rw [hexec]

/-- C7 at a first iteration whose fetch is refused: the error of the fetch is returned. -/
theorem execute_hard_error_witness :
    (execute matchAll deadlineExceeded ([] ++ .error connectionRefused :: [])).1 =
      some connectionRefused :=
  (execute_hard_error matchAll deadlineExceeded [] [] (.error connectionRefused)
    connectionRefused (by simp) rfl).2.1 rfl

/-- C7 fails as stated: after an iteration in which a candidate fully matched, an iteration
whose fetch fails with an error that is not not-found ends the polling, and `execute` returns
the violation of the earlier iteration, not the error of the fetch. -/
theorem execute_hard_error_counterexample :
    IsNotFound connectionRefused = false ∧
      execute matchAll deadlineExceeded [.ok [samplePod], .error connectionRefused] =
        (some (Err.errorf "v1/Pod/web - resource matches expectation"), []) ∧
      (execute matchAll deadlineExceeded [.ok [samplePod], .error connectionRefused]).1 ≠
        some connectionRefused := by
  refine ⟨rfl, rfl, ?_⟩
  rw [show execute matchAll deadlineExceeded [.ok [samplePod], .error connectionRefused] =
    (some (Err.errorf "v1/Pod/web - resource matches expectation"), []) from rfl]
  intro h
  cases h

end operror

/-! ### Cleanup registration -/

theorem isSetTrue_iff (flag : Option Bool) : isSetTrue flag = true ↔ flag = some true := by
  cases flag with
  | none => simp [isSetTrue]
  | some b => simp [isSetTrue]

theorem isSetTrue_false_iff (flag : Option Bool) :
    isSetTrue flag = false ↔ flag ≠ some true := by
  cases flag with
  | none => simp [isSetTrue]
  | some b => simp [isSetTrue]

theorem getCleaner_isSome (p : stepProcessor) (dryRun : Bool) :
    (p.getCleaner dryRun).isSome = true ↔
      (dryRun = false ∧
        p.env.Skip p.config.SkipDelete p.test.Spec.SkipDelete p.step.TestStepSpec.SkipDelete =
          false) := by
  unfold stepProcessor.getCleaner
  cases dryRun <;>
    cases p.env.Skip p.config.SkipDelete p.test.Spec.SkipDelete p.step.TestStepSpec.SkipDelete <;>
    simp

theorem applyResources_mem (p : stepProcessor) (op : Apply) (dryRun : Bool)
    (resources : List Unstructured) :
    ∀ acc ops, p.applyResources op dryRun resources acc = .ok ops → ∀ o ∈ ops,
      o ∈ acc ∨ ∃ resource, o.operation =
        Action.apply (p.getClient dryRun) resource p.namespacer (p.getCleaner dryRun)
          op.Expect := by
  induction resources with
  | nil =>
    intro acc ops h o ho
    simp only [stepProcessor.applyResources, Except.ok.injEq] at h
    subst h
    exact Or.inl ho
  | cons resource rest ih =>
    intro acc ops h o ho
    simp only [stepProcessor.applyResources] at h
    split at h
    · cases h
    · rename_i prepared _
      rcases ih _ _ h o ho with hacc | hnew
      · rcases List.mem_append.mp hacc with hacc | hlast
        · exact Or.inl hacc
        · simp only [List.mem_singleton] at hlast
          exact Or.inr ⟨prepared, by rw [hlast]⟩
      · exact Or.inr hnew

theorem createResources_mem (p : stepProcessor) (op : Create) (dryRun : Bool)
    (resources : List Unstructured) :
    ∀ acc ops, p.createResources op dryRun resources acc = .ok ops → ∀ o ∈ ops,
      o ∈ acc ∨ ∃ resource, o.operation =
        Action.create (p.getClient dryRun) resource p.namespacer (p.getCleaner dryRun)
          op.Expect := by
  induction resources with
  | nil =>
    intro acc ops h o ho
    simp only [stepProcessor.createResources, Except.ok.injEq] at h
    subst h
    exact Or.inl ho
  | cons resource rest ih =>
    intro acc ops h o ho
    simp only [stepProcessor.createResources] at h
    split at h
    · cases h
    · rename_i prepared _
      rcases ih _ _ h o ho with hacc | hnew
      · rcases List.mem_append.mp hacc with hacc | hlast
        · exact Or.inl hacc
        · simp only [List.mem_singleton] at hlast
          exact Or.inr ⟨prepared, by rw [hlast]⟩
      · exact Or.inr hnew

/-- What `getClient` and `getCleaner` hand out under a dry-run flag. -/
theorem client_and_cleaner (p : stepProcessor) (flag : Option Bool) :
    ((p.getCleaner (isSetTrue flag)).isSome = true ↔
      (flag ≠ some true ∧
        p.env.Skip p.config.SkipDelete p.test.Spec.SkipDelete p.step.TestStepSpec.SkipDelete =
          false)) ∧
    (flag = some true →
      p.getClient (isSetTrue flag) = Client.DryRun p.client ∧
        p.getCleaner (isSetTrue flag) = none) ∧
    (flag ≠ some true → p.getClient (isSetTrue flag) = p.client) := by
  refine ⟨?_, ?_, ?_⟩
  · rw [getCleaner_isSome, isSetTrue_false_iff]
  · intro h
    simp [h, isSetTrue, stepProcessor.getClient, stepProcessor.getCleaner]
  · intro h
    have hf : isSetTrue flag = false := (isSetTrue_false_iff flag).mpr h
    simp [hf, stepProcessor.getClient]

/-- C11: every operation built for an apply or a create directive is handed a cleanup callback
if and only if the directive is not dry-run and the skip-delete decision over the global, test
and step flags is false; a dry-run directive gets no callback and the dry-run variant of the
client, a directive that is not dry-run gets the client of the processor; and each call of a
callback makes one call of `register` on the cleaner, for the object and client it is given
under the cleanup timeout. -/
theorem apply_create_cleanup (p : stepProcessor) :
    (∀ (op : Apply) (ops : List operation), (p.applyOperation op).2 = .ok ops → ∀ o ∈ ops,
      ∃ client cleaner, o.operation.clientAndCleaner = some (client, cleaner) ∧
        (cleaner.isSome = true ↔
          (op.DryRun ≠ some true ∧
            p.env.Skip p.config.SkipDelete p.test.Spec.SkipDelete
              p.step.TestStepSpec.SkipDelete = false)) ∧
        (op.DryRun = some true → client = Client.DryRun p.client ∧ cleaner = none) ∧
        (op.DryRun ≠ some true → client = p.client)) ∧
    (∀ (op : Create) (ops : List operation), (p.createOperation op).2 = .ok ops → ∀ o ∈ ops,
      ∃ client cleaner, o.operation.clientAndCleaner = some (client, cleaner) ∧
        (cleaner.isSome = true ↔
          (op.DryRun ≠ some true ∧
            p.env.Skip p.config.SkipDelete p.test.Spec.SkipDelete
              p.step.TestStepSpec.SkipDelete = false)) ∧
        (op.DryRun = some true → client = Client.DryRun p.client ∧ cleaner = none) ∧
        (op.DryRun ≠ some true → client = p.client)) ∧
    (∀ (dryRun : Bool) (cleaner : Cleaner), p.getCleaner dryRun = some cleaner →
      ∀ (obj : Unstructured) (c : Client) (registered : List Registration),
        cleaner.call obj c registered = registered ++
          [{ obj := obj, client := c,
             timeout := timeoutGet none p.timeouts.CleanupDuration }]) := by
  refine ⟨?_, ?_, ?_⟩
  · intro op ops h o ho
    simp only [stepProcessor.applyOperation] at h
    split at h
    · cases h
    · rename_i resources _
      rcases applyResources_mem p op (isSetTrue op.DryRun) resources [] ops h o ho with
        hnil | ⟨resource, hop⟩
      · simp at hnil
      · obtain ⟨h1, h2, h3⟩ := client_and_cleaner p op.DryRun
        exact ⟨_, _, by rw [hop]; rfl, h1, h2, h3⟩
  · intro op ops h o ho
    simp only [stepProcessor.createOperation] at h
    split at h
    · cases h
    · rename_i resources _
      rcases createResources_mem p op (isSetTrue op.DryRun) resources [] ops h o ho with
        hnil | ⟨resource, hop⟩
      · simp at hnil
      · obtain ⟨h1, h2, h3⟩ := client_and_cleaner p op.DryRun
        exact ⟨_, _, by rw [hop]; rfl, h1, h2, h3⟩
  · intro dryRun cleaner h obj c registered
    unfold stepProcessor.getCleaner at h
    split at h
    · cases h
    · split at h
      · cases h
      · simp only [Option.some.injEq] at h
        subst h
        rfl

/-- C11 at the sample apply directive, which is not dry-run and not skipped: the operation
built holds the client of the processor and a callback. -/
theorem apply_create_cleanup_witness :
    ∃ client cleaner, applyOperationBuilt.operation.clientAndCleaner = some (client, cleaner) ∧
      (cleaner.isSome = true ↔
        (sampleApply.DryRun ≠ some true ∧
          sampleEnv.Skip false none none = false)) ∧
      (sampleApply.DryRun = some true → client = Client.DryRun Client.cluster ∧ cleaner = none) ∧
      (sampleApply.DryRun ≠ some true → client = Client.cluster) :=
  (apply_create_cleanup (sampleProcessor none emptyStep)).1 sampleApply [applyOperationBuilt]
    rfl applyOperationBuilt (List.mem_singleton.mpr rfl)

/-! ### Loading resources -/

namespace resource

/-- Documents that all convert and unmarshal give one resource each, in order, after the
resources gathered so far. -/
theorem parseDocuments_ok (convert : converter) (unmarshal : Bytes → Except String Unstructured)
    (documents : List Bytes) :
    ∀ acc, (∀ d ∈ documents, ∃ json r, convert d = .ok json ∧ unmarshal json = .ok r) →
      ∃ resources, parseDocuments convert unmarshal documents acc = .ok (acc ++ resources) ∧
        List.Forall₂ (fun d r => ∃ json, convert d = .ok json ∧ unmarshal json = .ok r)
          documents resources := by
  induction documents with
  | nil =>
    intro acc _
    exact ⟨[], by simp [parseDocuments], List.Forall₂.nil⟩
  | cons d rest ih =>
    intro acc hall
    obtain ⟨json, r, hc, hu⟩ := hall d (List.mem_cons_self _ _)
    obtain ⟨resources, hrest, hforall⟩ :=
      ih (acc ++ [r]) (fun d' hd' => hall d' (List.mem_cons_of_mem _ hd'))
    refine ⟨r :: resources, ?_, List.Forall₂.cons ⟨json, hc, hu⟩ hforall⟩
    simp only [parseDocuments, hc, hu, hrest]
    simp

/-- A document that fails to convert or to unmarshal makes the loop return an error. -/
theorem parseDocuments_error (convert : converter)
    (unmarshal : Bytes → Except String Unstructured) (documents : List Bytes) :
    ∀ acc, (∃ d ∈ documents, ¬ ∃ json r, convert d = .ok json ∧ unmarshal json = .ok r) →
      ∃ err, parseDocuments convert unmarshal documents acc = .error err := by
  induction documents with
  | nil =>
    rintro acc ⟨d, hd, -⟩
    simp at hd
  | cons d rest ih =>
    rintro acc ⟨bad, hbad, hfails⟩
    cases hc : convert d with
    | error err => exact ⟨err, by simp only [parseDocuments, hc]⟩
    | ok json =>
      cases hu : unmarshal json with
      | error err => exact ⟨err, by simp only [parseDocuments, hc, hu]⟩
      | ok r =>
        rcases List.mem_cons.mp hbad with rfl | hrest
        · exact absurd ⟨json, r, hc, hu⟩ hfails
        · obtain ⟨err, herr⟩ := ih (acc ++ [r]) ⟨bad, hrest, hfails⟩
          exact ⟨err, by simp only [parseDocuments, hc, hu, herr]⟩

/-- C12: `parse` is all-or-nothing. If the splitter fails, `parse` returns its error; if every
document it produces converts and unmarshals, `parse` returns one resource per document, in
document order; if a document fails to convert or to unmarshal, `parse` returns an error and
no list; and when `Parse` fails on the content they read, `Load` and `LoadFromURI` return
that error. -/
theorem parse_all_or_nothing (h : Host) (content : Bytes) (split : Option splitter)
    (convert : Option converter) :
    (∀ err, (split.getD h.SplitDocuments) content = .error err →
      parse h content split convert = .error err) ∧
    (∀ documents, (split.getD h.SplitDocuments) content = .ok documents →
      ((∀ d ∈ documents, ∃ json r,
          (convert.getD h.ToJSON) d = .ok json ∧ h.UnmarshalJSON json = .ok r) →
        ∃ resources, parse h content split convert = .ok resources ∧
          List.Forall₂ (fun d r => ∃ json,
            (convert.getD h.ToJSON) d = .ok json ∧ h.UnmarshalJSON json = .ok r)
            documents resources) ∧
      ((∃ d ∈ documents, ¬ ∃ json r,
          (convert.getD h.ToJSON) d = .ok json ∧ h.UnmarshalJSON json = .ok r) →
        ∃ err, parse h content split convert = .error err)) ∧
    (∀ path fileContent err, h.ReadFile (h.Clean path) = .ok fileContent →
      Parse h fileContent = .error err → Load h path = .error err) ∧
    (∀ url tempFile fileContent err, h.CreateTemp = .ok tempFile →
      ExponentialBackoff (fun attempt => (h.Get url tempFile attempt).isNone) 3 0 = none →
      h.ReadFile tempFile = .ok fileContent → h.Close tempFile = none →
      Parse h fileContent = .error err → LoadFromURI h url = .error err) := by
  have hsplit : (match split with
      | none => h.SplitDocuments
      | some f => f) = split.getD h.SplitDocuments := by
    cases split <;> rfl
  have hconvert : (match convert with
      | none => h.ToJSON
      | some f => f) = convert.getD h.ToJSON := by
    cases convert <;> rfl
  refine ⟨?_, ?_, ?_, ?_⟩
  · intro err herr
    simp only [parse, hsplit, herr]
  · intro documents hdocs
    constructor
    · intro hall
      obtain ⟨resources, hparse, hforall⟩ :=
        parseDocuments_ok (convert.getD h.ToJSON) h.UnmarshalJSON documents [] hall
      exact ⟨resources, by simp only [parse, hsplit, hconvert, hdocs, hparse, List.nil_append],
        hforall⟩
    · intro hbad
      obtain ⟨err, herr⟩ :=
        parseDocuments_error (convert.getD h.ToJSON) h.UnmarshalJSON documents [] hbad
      exact ⟨err, by simp only [parse, hsplit, hconvert, hdocs, herr]⟩
  · intro path fileContent err hread hparse
    simp only [Load, hread, hparse]
  · intro url tempFile fileContent err htemp hget hread hclose hparse
    simp only [LoadFromURI, htemp, hget, hread, hclose, hparse]

/-- C12 at the sample host: a content of two good documents parses into the two resources, and
a file whose second document does not unmarshal makes `Load` fail with that error. -/
theorem parse_all_or_nothing_witness :
    (∃ resources, parse sampleHost "pod,configmap" none none = .ok resources ∧
      List.Forall₂ (fun d r => ∃ json,
        sampleHost.ToJSON d = .ok json ∧ sampleHost.UnmarshalJSON json = .ok r)
        ["pod", "configmap"] resources) ∧
      Load sampleHost "testdata/broken.yaml" = .error "json: cannot unmarshal" :=
  ⟨((parse_all_or_nothing sampleHost "pod,configmap" none none).2.1 ["pod", "configmap"]
      rfl).1 (by
        intro d hd
        simp only [List.mem_cons, List.mem_singleton, List.not_mem_nil, or_false] at hd
        rcases hd with rfl | rfl
        · exact ⟨"pod", samplePod, rfl, rfl⟩
        · exact ⟨"configmap", sampleConfigMap, rfl, rfl⟩),
    (parse_all_or_nothing sampleHost "pod,broken" none none).2.2.1 "testdata/broken.yaml"
      "pod,broken" "json: cannot unmarshal" rfl rfl⟩

end resource

end Chainsaw
